import Mathlib

/-!
Verification of the DoorayCalendarSkills synchronization core.

The definitions below are a shallow embedding of the TypeScript sources:
`src/types.ts` (data model), `src/sync/store.ts` (mapping store),
`src/sync/engine.ts` (sync engine), and the per-backend transform
functions of the calendar adapters (`google.ts` `toGoogleEvent`, the
CalDAV `toICal` of the Dooray and Apple clients, and the REST
`toRequestBody` of the older Dooray client). Promises that may reject
are embedded as `Option`/`Bool` results; the nondeterministic clock is
an explicit `now : String` parameter; remote calendars are an explicit
`Adapters` record of response functions plus a `fetch` function.
-/

/-- Event visibility, `"public" | "private"` in `types.ts`. `pub` stands for
the string `"public"` and `priv` for `"private"`. -/
inductive EventVisibility
  | pub
  | priv
deriving DecidableEq, Repr

/-- Origin calendar tag, `"dooray" | "google" | "apple"` in `types.ts`. -/
inductive CalendarSource
  | dooray
  | google
  | apple
deriving DecidableEq, Repr

/-- Normalized calendar event, interface `CalendarEvent` of `types.ts`.
Optional fields are `Option`; `isOwnCalendar` is the extra field set by the
Google and Dooray CalDAV adapters (absent from events of other origins). -/
structure CalendarEvent where
  sourceId : String
  source : CalendarSource
  title : String
  description : Option String
  location : Option String
  startTime : String
  endTime : String
  isAllDay : Bool
  visibility : EventVisibility
  updatedAt : Option String
  recurrence : Option String
  isOwnCalendar : Option Bool := none
deriving DecidableEq, Repr

/-- Mapping row, interface `SyncMapping` of `types.ts`. -/
structure SyncMapping where
  sourceId : String
  source : CalendarSource
  targetId : String
  target : CalendarSource
  lastSyncedAt : String
  sourceUpdatedAt : Option String
deriving DecidableEq, Repr

/-- Error entry, interface `SyncError` of `types.ts`. -/
structure SyncError where
  sourceId : String
  source : CalendarSource
  target : CalendarSource
  message : String
deriving DecidableEq, Repr

/-- Run counters, interface `SyncResult` of `types.ts`. -/
structure SyncResult where
  created : Nat
  updated : Nat
  deleted : Nat
  errors : List SyncError
deriving DecidableEq, Repr

/-! The mapping store, `src/sync/store.ts`. The store state is the
in-memory `mappings` array; `save()` only mirrors it to disk and is
dropped from the embedding. -/

/-- Lookup by composite key, `SyncStore.findMapping`. -/
def findMapping (sourceId : String) (source target : CalendarSource)
    (mappings : List SyncMapping) : Option SyncMapping :=
  mappings.find? fun m =>
    m.sourceId == sourceId && m.source == source && m.target == target

/-- All rows of one directed edge, `SyncStore.findMappingsByTarget`. -/
def findMappingsByTarget (source target : CalendarSource)
    (mappings : List SyncMapping) : List SyncMapping :=
  mappings.filter fun m => m.source == source && m.target == target

/-- Composite-key equality used by the `findIndex` call inside
`SyncStore.upsertMapping`. -/
def keyEq (m mapping : SyncMapping) : Bool :=
  m.sourceId == mapping.sourceId && m.source == mapping.source &&
    m.target == mapping.target

/-- Insert or replace by composite key, `SyncStore.upsertMapping`: the first
row with a matching key is replaced in place, otherwise the row is pushed at
the end. -/
def upsertMapping (mapping : SyncMapping) :
    List SyncMapping → List SyncMapping
  | [] => [mapping]
  | m :: ms =>
    if keyEq m mapping then mapping :: ms else m :: upsertMapping mapping ms

/-- Delete by composite key, `SyncStore.removeMapping`. -/
def removeMapping (sourceId : String) (source target : CalendarSource)
    (mappings : List SyncMapping) : List SyncMapping :=
  mappings.filter fun m =>
    !(m.sourceId == sourceId && m.source == source && m.target == target)

/-- Reverse lookup by target id, `SyncStore.isSyncedEvent`. -/
def isSyncedEvent (eventId : String) (calendar : CalendarSource)
    (mappings : List SyncMapping) : Bool :=
  mappings.any fun m => m.targetId == eventId && m.target == calendar

/-- Set of engine-created ids in one calendar, `SyncStore.getSyncedTargetIds`.
The TypeScript builds a `Set<string>` by iteration; the embedding keeps the
list of added elements, membership being the observable of a set. -/
def getSyncedTargetIds (calendar : CalendarSource)
    (mappings : List SyncMapping) : List String :=
  (mappings.filter fun m => m.target == calendar).map fun m => m.targetId

/-- Composite key of a mapping row. -/
def mappingKey (m : SyncMapping) : String × CalendarSource × CalendarSource :=
  (m.sourceId, m.source, m.target)

/-- A store state has at most one row per composite key. -/
def KeysUnique (mappings : List SyncMapping) : Prop :=
  (mappings.map mappingKey).Nodup

/-- One mutating store operation. -/
inductive StoreOp
  | upsert (m : SyncMapping)
  | remove (sourceId : String) (source target : CalendarSource)
deriving DecidableEq, Repr

/-- Apply one mutating store operation. -/
def applyOp (st : List SyncMapping) : StoreOp → List SyncMapping
  | .upsert m => upsertMapping m st
  | .remove sid s t => removeMapping sid s t st

/-- Apply a sequence of mutating store operations, oldest first. -/
def applyOps (ops : List StoreOp) (st : List SyncMapping) : List SyncMapping :=
  ops.foldl applyOp st

/-! Adapter transform functions. -/

/-- Truthiness of an optional string in TypeScript: defined and nonempty. -/
def strTruthy : Option String → Bool
  | none => false
  | some s => !(s == "")

/-- The fixed replacement notice used by every redacting adapter for the
description of a private mirror. -/
def privateNotice : String :=
  "(비공개 일정) 다른 캘린더에서 동기화된 일정입니다."

/-- The marker string put before the title of a private mirror. -/
def lockMarker : String := "🔒 "

namespace Google

/-- Start or end encoding of a Google event: `{date}` or `{dateTime}`. -/
inductive GTime
  | date (d : String)
  | dateTime (dt : String)
deriving DecidableEq, Repr

/-- The reminders object set for shared-calendar events. -/
structure GReminders where
  useDefault : Bool
  overrides : List String
deriving DecidableEq, Repr

/-- Request body built by `GoogleCalendarClient.toGoogleEvent`. -/
structure GoogleEventBody where
  summary : String
  description : String
  visibility : String
  location : Option String := none
  start : GTime
  «end» : GTime
  recurrence : Option (List String) := none
  transparency : Option String := none
  reminders : Option GReminders := none
deriving DecidableEq, Repr

/-- Embedding of `GoogleCalendarClient.toGoogleEvent` (google.ts). -/
def toGoogleEvent (event : CalendarEvent) (visibility : EventVisibility) :
    GoogleEventBody :=
  let body : GoogleEventBody :=
    { summary := if visibility == EventVisibility.priv
        then lockMarker ++ event.title else event.title
      description := if visibility == EventVisibility.priv
        then privateNotice else event.description.getD ""
      visibility := if visibility == EventVisibility.priv
        then "private" else "default"
      start := if event.isAllDay
        then GTime.date ((event.startTime.splitOn "T").headD event.startTime)
        else GTime.dateTime event.startTime
      «end» := if event.isAllDay
        then GTime.date ((event.endTime.splitOn "T").headD event.endTime)
        else GTime.dateTime event.endTime }
  let body := if strTruthy event.location && !(visibility == EventVisibility.priv)
    then { body with location := event.location } else body
  let body := if strTruthy event.recurrence
    then { body with recurrence := some [event.recurrence.getD ""] } else body
  let body := if visibility == EventVisibility.priv
    then { body with transparency := some "opaque" } else body
  let body := if event.isOwnCalendar == some false
    then { body with reminders := some ⟨false, []⟩ } else body
  body

end Google

namespace DoorayCalDAV

/-- Embedding of the `escapeICal` helper of the Dooray CalDAV client. -/
def escapeICal (text : String) : String :=
  ((((text.replace "\\" "\\\\").replace ";" "\\;").replace "," "\\,").replace
    "\n" "\\n")

/-- Embedding of the `toICalDate` helper of the Dooray CalDAV client. -/
def toICalDate (isoDate : String) : String :=
  if !(isoDate.contains 'T') then isoDate.replace "-" ""
  else (isoDate.replace "-" "").replace ":" ""

/-- Embedding of `DoorayCalendarClient.toICal` (CalDAV variant, dooray.ts)
as its list of pushed iCal lines; the TypeScript joins them with CRLF. -/
def toICal (uid : String) (event : CalendarEvent)
    (visibility : EventVisibility) (now : String) : List String :=
  let title := if visibility == EventVisibility.priv
    then lockMarker ++ event.title else event.title
  let description := if visibility == EventVisibility.priv
    then privateNotice else event.description.getD ""
  let dtStartParam := if event.isAllDay then ";VALUE=DATE" else ""
  let dtEndParam := if event.isAllDay then ";VALUE=DATE" else ""
  let ical := ["BEGIN:VCALENDAR", "VERSION:2.0",
    "PRODID:-//OpenClaw Dooray Sync//EN", "BEGIN:VEVENT",
    "UID:" ++ uid, "DTSTAMP:" ++ now,
    "DTSTART" ++ dtStartParam ++ ":" ++ toICalDate event.startTime,
    "DTEND" ++ dtEndParam ++ ":" ++ toICalDate event.endTime,
    "SUMMARY:" ++ escapeICal title]
  let ical := if description != ""
    then ical ++ ["DESCRIPTION:" ++ escapeICal description] else ical
  let ical := if strTruthy event.location && !(visibility == EventVisibility.priv)
    then ical ++ ["LOCATION:" ++ escapeICal (event.location.getD "")] else ical
  let ical := if visibility == EventVisibility.priv
    then ical ++ ["CLASS:PRIVATE"] else ical ++ ["CLASS:PUBLIC"]
  let ical := if strTruthy event.recurrence
    then ical ++ ["RRULE:" ++ event.recurrence.getD ""] else ical
  ical ++ ["END:VEVENT", "END:VCALENDAR"]

/-- The joined iCal payload, `ical.join("\r\n")`. -/
def toICalString (uid : String) (event : CalendarEvent)
    (visibility : EventVisibility) (now : String) : String :=
  String.intercalate "\r\n" (toICal uid event visibility now)

end DoorayCalDAV

namespace Apple

/-- Embedding of the `escapeICal` helper of the Apple CalDAV client. -/
def escapeICal (text : String) : String :=
  ((((text.replace "\\" "\\\\").replace ";" "\\;").replace "," "\\,").replace
    "\n" "\\n")

/-- Embedding of the `toICalDate` helper of the Apple CalDAV client. -/
def toICalDate (isoDate : String) : String :=
  if !(isoDate.contains 'T') then isoDate.replace "-" ""
  else (isoDate.replace "-" "").replace ":" ""

/-- Embedding of `AppleCalendarClient.toICal` as its list of pushed iCal
lines; the TypeScript joins them with CRLF. -/
def toICal (uid : String) (event : CalendarEvent)
    (visibility : EventVisibility) (now : String) : List String :=
  let title := if visibility == EventVisibility.priv
    then lockMarker ++ event.title else event.title
  let description := if visibility == EventVisibility.priv
    then privateNotice else event.description.getD ""
  let dtStartParam := if event.isAllDay then ";VALUE=DATE" else ""
  let dtEndParam := if event.isAllDay then ";VALUE=DATE" else ""
  let ical := ["BEGIN:VCALENDAR", "VERSION:2.0",
    "PRODID:-//OpenClaw Dooray Sync//EN", "BEGIN:VEVENT",
    "UID:" ++ uid, "DTSTAMP:" ++ now,
    "DTSTART" ++ dtStartParam ++ ":" ++ toICalDate event.startTime,
    "DTEND" ++ dtEndParam ++ ":" ++ toICalDate event.endTime,
    "SUMMARY:" ++ escapeICal title]
  let ical := if description != ""
    then ical ++ ["DESCRIPTION:" ++ escapeICal description] else ical
  let ical := if strTruthy event.location && !(visibility == EventVisibility.priv)
    then ical ++ ["LOCATION:" ++ escapeICal (event.location.getD "")] else ical
  let ical := if visibility == EventVisibility.priv
    then ical ++ ["CLASS:PRIVATE"] else ical ++ ["CLASS:PUBLIC"]
  let ical := if strTruthy event.recurrence
    then ical ++ ["RRULE:" ++ event.recurrence.getD ""] else ical
  ical ++ ["END:VEVENT", "END:VCALENDAR"]

end Apple

namespace DoorayRest

/-- Nested `body` object of a Dooray REST event request. -/
structure BodyText where
  content : String
  mimeType : String
deriving DecidableEq, Repr

/-- Request body built by the REST `DoorayCalendarClient.toRequestBody`. -/
structure RequestBody where
  subject : String
  body : BodyText
  startedAt : String
  endedAt : String
  allDay : Bool
  location : Option String := none
  scope : Option String := none
  recurrence : Option String := none
deriving DecidableEq, Repr

/-- Embedding of the REST `DoorayCalendarClient.toRequestBody`. -/
def toRequestBody (event : CalendarEvent) (visibility : EventVisibility) :
    RequestBody :=
  let body : RequestBody :=
    { subject := event.title
      body := { content := event.description.getD "", mimeType := "text/plain" }
      startedAt := event.startTime
      endedAt := event.endTime
      allDay := event.isAllDay }
  let body := if strTruthy event.location
    then { body with location := event.location } else body
  let body := if visibility == EventVisibility.priv
    then { body with scope := some "private" } else body
  let body := if strTruthy event.recurrence
    then { body with recurrence := event.recurrence } else body
  body

end DoorayRest

/-! The sync engine, `src/sync/engine.ts`. The registered clients are the
list of their names in registration order (the `Map` iterates in insertion
order); their remote behavior is an `Adapters` record in which a rejected
promise is `none`/`false`; `getEvents` is a separate `fetch` function in
which a rejected fetch is `none`. -/

/-- Remote behavior of the registered calendar clients: for each client
name, the outcome of `createEvent` (the assigned id, or `none` when the
call rejects), `updateEvent` and `deleteEvent` (`false` when the call
rejects). -/
structure Adapters where
  createEvent : CalendarSource → CalendarEvent → EventVisibility → Option String
  updateEvent : CalendarSource → String → CalendarEvent → EventVisibility → Bool
  deleteEvent : CalendarSource → String → Bool

/-- One remote write attempted by the engine, recorded with the edge on
which it happened. -/
inductive Op
  | create (source target : CalendarSource) (event : CalendarEvent)
      (visibility : EventVisibility)
  | update (source target : CalendarSource) (targetId : String)
      (event : CalendarEvent) (visibility : EventVisibility)
  | delete (source target : CalendarSource) (targetId : String)
deriving DecidableEq, Repr

/-- Source calendar of the edge on which an operation was attempted. -/
def Op.src : Op → CalendarSource
  | .create s _ _ _ => s
  | .update s _ _ _ _ => s
  | .delete s _ _ => s

/-- Visibility argument passed to the target adapter, when the operation
carries one. -/
def Op.vis : Op → Option EventVisibility
  | .create _ _ _ v => some v
  | .update _ _ _ _ v => some v
  | .delete _ _ _ => none

/-- True exactly for create operations. -/
def Op.isCreate : Op → Bool
  | .create _ _ _ _ => true
  | _ => false

/-- True exactly for delete operations. -/
def Op.isDelete : Op → Bool
  | .delete _ _ _ => true
  | _ => false

/-- Outcome of one engine phase: the store after it, its counters and
errors, and the remote writes it attempted. -/
structure StepOut where
  store : List SyncMapping
  result : SyncResult
  ops : List Op
deriving DecidableEq, Repr

/-- The all-zero result every loop starts from. -/
def emptyResult : SyncResult := ⟨0, 0, 0, []⟩

/-- Accumulate a later partial result onto an earlier one, as the engine
does with `+=` on the counters and `push` on the error list. -/
def addResult (a b : SyncResult) : SyncResult :=
  ⟨a.created + b.created, a.updated + b.updated, a.deleted + b.deleted,
    a.errors ++ b.errors⟩

/-- Message recorded when a fetch rejects; the TypeScript interpolates the
thrown error, which the embedding abstracts to a constant. -/
def fetchFailMsg : String := "이벤트 조회 실패"

/-- Message recorded when a create or update rejects. -/
def writeFailMsg : String := "remote write rejected"

/-- Message recorded when a cleanup delete rejects. -/
def deleteFailMsg : String := "삭제 실패"

/-- Embedding of `SyncEngine.getVisibility`: `dooray` maps to public and
every other source to private. -/
def getVisibility (source : CalendarSource) : EventVisibility :=
  if source == CalendarSource.dooray then EventVisibility.pub
  else EventVisibility.priv

/-- The `needsUpdate` condition of `SyncEngine.syncEventsToTarget`: both
modification stamps truthy and different. -/
def needsUpdate (event : CalendarEvent) (existing : SyncMapping) : Bool :=
  strTruthy event.updatedAt && strTruthy existing.sourceUpdatedAt &&
    !(event.updatedAt == existing.sourceUpdatedAt)

/-- Body of the per-event loop of `SyncEngine.syncEventsToTarget`: decide
create, update or no-op, perform the write, and on success mutate the
store; a rejected write only records an error entry. -/
def processEvent (ad : Adapters) (now : String) (source target : CalendarSource)
    (visibility : EventVisibility) (event : CalendarEvent)
    (st : List SyncMapping) : StepOut :=
  match findMapping event.sourceId source target st with
  | some existing =>
    if needsUpdate event existing then
      if ad.updateEvent target existing.targetId event visibility then
        { store := upsertMapping
            { existing with lastSyncedAt := now, sourceUpdatedAt := event.updatedAt } st
          result := ⟨0, 1, 0, []⟩
          ops := [Op.update source target existing.targetId event visibility] }
      else
        { store := st
          result := ⟨0, 0, 0, [⟨event.sourceId, source, target, writeFailMsg⟩]⟩
          ops := [Op.update source target existing.targetId event visibility] }
    else { store := st, result := emptyResult, ops := [] }
  | none =>
    match ad.createEvent target event visibility with
    | some targetId =>
      { store := upsertMapping
          ⟨event.sourceId, source, targetId, target, now, event.updatedAt⟩ st
        result := ⟨1, 0, 0, []⟩
        ops := [Op.create source target event visibility] }
    | none =>
      { store := st
        result := ⟨0, 0, 0, [⟨event.sourceId, source, target, writeFailMsg⟩]⟩
        ops := [Op.create source target event visibility] }

/-- Embedding of `SyncEngine.syncEventsToTarget`: fold the per-event step
over the fetched events of one edge. -/
def syncEventsToTarget (ad : Adapters) (now : String)
    (source target : CalendarSource) (visibility : EventVisibility) :
    List CalendarEvent → List SyncMapping → StepOut
  | [], st => { store := st, result := emptyResult, ops := [] }
  | event :: rest, st =>
    let o1 := processEvent ad now source target visibility event st
    let o2 := syncEventsToTarget ad now source target visibility rest o1.store
    { store := o2.store, result := addResult o1.result o2.result,
      ops := o1.ops ++ o2.ops }

/-- Inner loop of the propagation phase of `SyncEngine.sync`: push the
events of one source to every registered client except itself, with the
visibility computed from the source. -/
def syncToTargets (ad : Adapters) (now : String) (source : CalendarSource)
    (events : List CalendarEvent) :
    List CalendarSource → List SyncMapping → StepOut
  | [], st => { store := st, result := emptyResult, ops := [] }
  | target :: rest, st =>
    if target == source then syncToTargets ad now source events rest st
    else
      let o1 := syncEventsToTarget ad now source target (getVisibility source)
        events st
      let o2 := syncToTargets ad now source events rest o1.store
      { store := o2.store, result := addResult o1.result o2.result,
        ops := o1.ops ++ o2.ops }

/-- Outer loop of the propagation phase of `SyncEngine.sync` over the
successfully fetched calendars. -/
def propagate (ad : Adapters) (now : String) (clients : List CalendarSource) :
    List (CalendarSource × List CalendarEvent) → List SyncMapping → StepOut
  | [], st => { store := st, result := emptyResult, ops := [] }
  | (source, events) :: rest, st =>
    let o1 := syncToTargets ad now source events clients st
    let o2 := propagate ad now clients rest o1.store
    { store := o2.store, result := addResult o1.result o2.result,
      ops := o1.ops ++ o2.ops }

/-- Inner loop of `SyncEngine.cleanupDeletedEvents` over the snapshot of
mapping rows of one edge: delete the mirror of every row whose source id
is no longer fetched; only a successful delete removes the row. -/
def cleanupEdge (ad : Adapters) (source target : CalendarSource)
    (sourceIds : List String) :
    List SyncMapping → List SyncMapping → StepOut
  | [], st => { store := st, result := emptyResult, ops := [] }
  | m :: rest, st =>
    if sourceIds.contains m.sourceId then
      cleanupEdge ad source target sourceIds rest st
    else if ad.deleteEvent target m.targetId then
      let o := cleanupEdge ad source target sourceIds rest
        (removeMapping m.sourceId source target st)
      { store := o.store, result := addResult ⟨0, 0, 1, []⟩ o.result,
        ops := Op.delete source target m.targetId :: o.ops }
    else
      let o := cleanupEdge ad source target sourceIds rest st
      { store := o.store,
        result := addResult ⟨0, 0, 0, [⟨m.sourceId, source, target, deleteFailMsg⟩]⟩
          o.result,
        ops := Op.delete source target m.targetId :: o.ops }

/-- Per-source loop of `SyncEngine.cleanupDeletedEvents` over the
registered clients as targets, skipping the self pair; the snapshot of the
edge is taken from the store state at the start of the edge. -/
def cleanupTargets (ad : Adapters) (source : CalendarSource)
    (sourceIds : List String) :
    List CalendarSource → List SyncMapping → StepOut
  | [], st => { store := st, result := emptyResult, ops := [] }
  | target :: rest, st =>
    if target == source then cleanupTargets ad source sourceIds rest st
    else
      let o1 := cleanupEdge ad source target sourceIds
        (findMappingsByTarget source target st) st
      let o2 := cleanupTargets ad source sourceIds rest o1.store
      { store := o2.store, result := addResult o1.result o2.result,
        ops := o1.ops ++ o2.ops }

/-- Embedding of `SyncEngine.cleanupDeletedEvents` over the successfully
fetched calendars. -/
def cleanupDeletedEvents (ad : Adapters) (clients : List CalendarSource) :
    List (CalendarSource × List CalendarEvent) → List SyncMapping → StepOut
  | [], st => { store := st, result := emptyResult, ops := [] }
  | (source, events) :: rest, st =>
    let o1 := cleanupTargets ad source (events.map fun e => e.sourceId)
      clients st
    let o2 := cleanupDeletedEvents ad clients rest o1.store
    { store := o2.store, result := addResult o1.result o2.result,
      ops := o1.ops ++ o2.ops }

/-- Error entries pushed during the fetch phase for every client whose
fetch rejected. -/
def fetchErrors (fetch : CalendarSource → Option (List CalendarEvent)) :
    List CalendarSource → List SyncError
  | [] => []
  | c :: rest =>
    match fetch c with
    | some _ => fetchErrors fetch rest
    | none => ⟨"", c, c, fetchFailMsg⟩ :: fetchErrors fetch rest

/-- The `allEvents` map built by the fetch phase: the successfully fetched
calendars with their events, in registration order. -/
def allEventsOf (fetch : CalendarSource → Option (List CalendarEvent))
    (clients : List CalendarSource) :
    List (CalendarSource × List CalendarEvent) :=
  clients.filterMap fun c => (fetch c).map fun evs => (c, evs)

/-- Embedding of `SyncEngine.sync`: fetch phase, pairwise propagation,
cleanup, and aggregation of counters and errors. -/
def sync (ad : Adapters) (fetch : CalendarSource → Option (List CalendarEvent))
    (now : String) (clients : List CalendarSource)
    (st : List SyncMapping) : StepOut :=
  let allEvents := allEventsOf fetch clients
  let p := propagate ad now clients allEvents st
  let c := cleanupDeletedEvents ad clients allEvents p.store
  { store := c.store
    result := ⟨p.result.created, p.result.updated,
      p.result.deleted + c.result.deleted,
      fetchErrors fetch clients ++ p.result.errors ++ c.result.errors⟩
    ops := p.ops ++ c.ops }

/-! Concrete scenario objects used by witnesses and counterexamples. -/

/-- The single workplace event of the README scenario: `evt-1` "Team sync". -/
def teamSyncEvent : CalendarEvent :=
  { sourceId := "evt-1", source := CalendarSource.dooray, title := "Team sync"
    description := some "agenda", location := some "Room 1"
    startTime := "2026-02-15T10:00:00Z", endTime := "2026-02-15T11:00:00Z"
    isAllDay := false, visibility := EventVisibility.pub
    updatedAt := some "2026-02-14T00:00:00Z", recurrence := none }

/-- Adapters on which every remote call succeeds. -/
def happyAdapters : Adapters :=
  { createEvent := fun t _ _ => some
      (match t with
        | CalendarSource.dooray => "d-id"
        | CalendarSource.google => "g-id"
        | CalendarSource.apple => "a-id")
    updateEvent := fun _ _ _ _ => true
    deleteEvent := fun _ _ => true }

/-- The three registered calendars: W = dooray, P1 = google, P2 = apple. -/
def threeClients : List CalendarSource :=
  [CalendarSource.dooray, CalendarSource.google, CalendarSource.apple]

/-- Fetch of the first and second scenario runs: W has `evt-1`, P1 and P2
have no events. -/
def fetchScenario1 : CalendarSource → Option (List CalendarEvent)
  | CalendarSource.dooray => some [teamSyncEvent]
  | _ => some []

/-- Fetch of the third scenario run: `evt-1` is gone from W. -/
def fetchScenario3 : CalendarSource → Option (List CalendarEvent)
  | _ => some []

/-- First scenario run from the empty store. -/
def scenarioRun1 : StepOut := sync happyAdapters fetchScenario1 "t1" threeClients []

/-- Second scenario run, nothing changed remotely. -/
def scenarioRun2 : StepOut :=
  sync happyAdapters fetchScenario1 "t2" threeClients scenarioRun1.store

/-- Third scenario run, `evt-1` deleted at its origin. -/
def scenarioRun3 : StepOut :=
  sync happyAdapters fetchScenario3 "t3" threeClients scenarioRun2.store

/-- Private event whose confidential content the REST Dooray transform
forwards verbatim. -/
def leakEvent : CalendarEvent :=
  { sourceId := "evt-leak", source := CalendarSource.google
    title := "Confidential sync", description := some "secret-agenda"
    location := some "Room 5", startTime := "2026-03-01T10:00:00Z"
    endTime := "2026-03-01T11:00:00Z", isAllDay := false
    visibility := EventVisibility.priv, updatedAt := some "u1"
    recurrence := none }

/-- True exactly for update operations. -/
def Op.isUpdate : Op → Bool
  | .update _ _ _ _ _ => true
  | _ => false

/-- A store state is settled for event `e` on edge `(s, t)`: a mapping row
exists and the change-detection test is negative. -/
def goodFor (e : CalendarEvent) (s t : CalendarSource)
    (st : List SyncMapping) : Prop :=
  ∃ m, findMapping e.sourceId s t st = some m ∧ needsUpdate e m = false

/-- Two workplace events of the C3 counterexample: one with a stale mapping,
one new. -/
def staleEvent : CalendarEvent :=
  { sourceId := "x", source := CalendarSource.dooray, title := "X"
    description := none, location := none
    startTime := "2026-02-01T10:00:00Z", endTime := "2026-02-01T11:00:00Z"
    isAllDay := false, visibility := EventVisibility.pub
    updatedAt := some "B", recurrence := none }

/-- The second, not-yet-mapped event of the C3 counterexample. -/
def freshEvent : CalendarEvent :=
  { sourceId := "y", source := CalendarSource.dooray, title := "Y"
    description := none, location := none
    startTime := "2026-02-02T10:00:00Z", endTime := "2026-02-02T11:00:00Z"
    isAllDay := false, visibility := EventVisibility.pub
    updatedAt := some "C", recurrence := none }

/-- Clients of the C3 counterexample. -/
def cxClients : List CalendarSource :=
  [CalendarSource.dooray, CalendarSource.google]

/-- Fetch of the C3 counterexample, the same in both runs. -/
def cxFetch : CalendarSource → Option (List CalendarEvent)
  | CalendarSource.dooray => some [staleEvent, freshEvent]
  | _ => some []

/-- Initial store of the C3 counterexample: `x` already mapped with a stale
stamp. -/
def cxStore0 : List SyncMapping :=
  [⟨"x", CalendarSource.dooray, "gx", CalendarSource.google, "t0", some "A"⟩]

/-- First-run adapters of the C3 counterexample: creates succeed, updates
reject. -/
def cxAdapters1 : Adapters :=
  { createEvent := fun _ _ _ => some "gy"
    updateEvent := fun _ _ _ _ => false
    deleteEvent := fun _ _ => true }

/-- First counterexample run: its only create succeeds, its only update is
rejected. -/
def cxRun1 : StepOut := sync cxAdapters1 cxFetch "t1" cxClients cxStore0

/-- Second counterexample run over the unchanged fetch, all calls succeed. -/
def cxRun2 : StepOut := sync happyAdapters cxFetch "t2" cxClients cxRun1.store

/-- The per-edge body of the cleanup phase: snapshot the rows of the edge,
then sweep them against the fetched source ids. -/
def cleanupEdgeRun (ad : Adapters) (source target : CalendarSource)
    (ids : List String) (st : List SyncMapping) : StepOut :=
  cleanupEdge ad source target ids (findMappingsByTarget source target st) st

/-- Fetch with the apple calendar rejecting. -/
def failFetch : CalendarSource → Option (List CalendarEvent)
  | CalendarSource.dooray => some [teamSyncEvent]
  | CalendarSource.google => some []
  | CalendarSource.apple => none

theorem keyEq_iff (a b : SyncMapping) :
    keyEq a b = true ↔ mappingKey a = mappingKey b := by
  simp [keyEq, mappingKey, Prod.ext_iff, and_assoc]

theorem mappingKey_mem_upsert (m : SyncMapping) (st : List SyncMapping) :
    ∀ k, k ∈ (upsertMapping m st).map mappingKey →
      k = mappingKey m ∨ k ∈ st.map mappingKey := by
  induction st with
  | nil => intro k h; simpa [upsertMapping] using h
  | cons x xs ih =>
    intro k h
    cases hk : keyEq x m with
    | true =>
      simp only [upsertMapping, hk, if_true, List.map_cons, List.mem_cons] at h
      rcases h with rfl | hmem
      · exact Or.inl rfl
      · exact Or.inr (by
          rw [List.map_cons, List.mem_cons]; exact Or.inr hmem)
    | false =>
      simp only [upsertMapping, hk, Bool.false_eq_true, if_false,
        List.map_cons, List.mem_cons] at h
      rcases h with rfl | hmem
      · exact Or.inr (by rw [List.map_cons, List.mem_cons]; exact Or.inl rfl)
      · rcases ih k hmem with h1 | h1
        · exact Or.inl h1
        · exact Or.inr (by rw [List.map_cons, List.mem_cons]; exact Or.inr h1)

theorem keysUnique_upsert {st : List SyncMapping} (m : SyncMapping)
    (h : KeysUnique st) : KeysUnique (upsertMapping m st) := by
  unfold KeysUnique at h ⊢
  induction st with
  | nil => simp [upsertMapping]
  | cons x xs ih =>
    rw [List.map_cons, List.nodup_cons] at h
    rcases h with ⟨hx, hxs⟩
    cases hk : keyEq x m with
    | true =>
      have hkey : mappingKey x = mappingKey m := (keyEq_iff x m).mp hk
      simp only [upsertMapping, hk, if_true, List.map_cons]
      exact List.nodup_cons.mpr ⟨hkey ▸ hx, hxs⟩
    | false =>
      have hkey : mappingKey x ≠ mappingKey m := fun he => by
        rw [(keyEq_iff x m).mpr he] at hk; cases hk
      simp only [upsertMapping, hk, Bool.false_eq_true, if_false,
        List.map_cons]
      refine List.nodup_cons.mpr ⟨fun hmem => ?_, ih hxs⟩
      rcases mappingKey_mem_upsert m xs (mappingKey x) hmem with h1 | h1
      · exact hkey h1
      · exact hx h1

theorem keysUnique_remove (sid : String) (s t : CalendarSource)
    {st : List SyncMapping} (h : KeysUnique st) :
    KeysUnique (removeMapping sid s t st) := by
  have h2 : (st.map mappingKey).Nodup := h
  have hsub : List.Sublist ((removeMapping sid s t st).map mappingKey)
      (st.map mappingKey) := List.Sublist.map mappingKey (List.filter_sublist st)
  exact List.Nodup.sublist hsub h2

theorem findMapping_eq_some {sid : String} {s t : CalendarSource}
    {st : List SyncMapping} {m : SyncMapping}
    (h : findMapping sid s t st = some m) :
    m ∈ st ∧ m.sourceId = sid ∧ m.source = s ∧ m.target = t := by
  have hmem := List.mem_of_find?_eq_some h
  have hp := List.find?_some h
  simp only [Bool.and_eq_true, beq_iff_eq] at hp
  exact ⟨hmem, hp.1.1, hp.1.2, hp.2⟩

theorem findMapping_upsert_self (m : SyncMapping) (st : List SyncMapping) :
    findMapping m.sourceId m.source m.target (upsertMapping m st) = some m := by
  induction st with
  | nil => simp [upsertMapping, findMapping]
  | cons x xs ih =>
    by_cases hk : keyEq x m
    · simp [upsertMapping, hk, findMapping]
    · have hkey : mappingKey x ≠ mappingKey m := fun he =>
        hk ((keyEq_iff x m).mpr he)
      have hxne : ¬(x.sourceId == m.sourceId && x.source == m.source &&
          x.target == m.target) = true := by
        simp only [Bool.and_eq_true, beq_iff_eq]
        intro hc
        exact hkey (by simp [mappingKey, hc.1.1, hc.1.2, hc.2])
      simp only [upsertMapping, hk, if_neg, Bool.not_eq_true]
      simpa [findMapping, List.find?_cons, hxne] using ih

theorem findMapping_upsert_other (m : SyncMapping) (st : List SyncMapping)
    (sid : String) (s t : CalendarSource)
    (h : ¬(sid = m.sourceId ∧ s = m.source ∧ t = m.target)) :
    findMapping sid s t (upsertMapping m st) = findMapping sid s t st := by
  have hmne : ¬(m.sourceId == sid && m.source == s && m.target == t) = true := by
    simp only [Bool.and_eq_true, beq_iff_eq]
    intro hc
    exact h ⟨hc.1.1.symm, hc.1.2.symm, hc.2.symm⟩
  induction st with
  | nil => simp [upsertMapping, findMapping, List.find?_cons, hmne]
  | cons x xs ih =>
    by_cases hk : keyEq x m
    · have hkey := (keyEq_iff x m).mp hk
      have hxne : ¬(x.sourceId == sid && x.source == s && x.target == t) = true := by
        simp only [Bool.and_eq_true, beq_iff_eq]
        intro hc
        apply h
        have h1 : x.sourceId = m.sourceId ∧ x.source = m.source ∧
            x.target = m.target := by
          simpa [mappingKey, Prod.ext_iff] using hkey
        exact ⟨hc.1.1 ▸ h1.1, hc.1.2 ▸ h1.2.1, hc.2 ▸ h1.2.2⟩
      simp [upsertMapping, hk, findMapping, List.find?_cons, hmne, hxne]
    · simp only [upsertMapping, hk, if_neg, Bool.not_eq_true]
      by_cases hx : (x.sourceId == sid && x.source == s && x.target == t) = true
      · simp [findMapping, List.find?_cons, hx]
      · simpa [findMapping, List.find?_cons, hx] using ih

theorem findMapping_remove_self (sid : String) (s t : CalendarSource)
    (st : List SyncMapping) :
    findMapping sid s t (removeMapping sid s t st) = none := by
  rw [findMapping, List.find?_eq_none]
  intro m hmem hc
  have h1 := List.of_mem_filter hmem
  rw [hc] at h1
  simp at h1

theorem findMapping_remove_other (sid sid' : String) (s t s' t' : CalendarSource)
    (st : List SyncMapping) (h : ¬(sid = sid' ∧ s = s' ∧ t = t')) :
    findMapping sid s t (removeMapping sid' s' t' st) =
      findMapping sid s t st := by
  induction st with
  | nil => rfl
  | cons x xs ih =>
    by_cases hx : (x.sourceId == sid' && x.source == s' && x.target == t') = true
    · have hxne : ¬(x.sourceId == sid && x.source == s && x.target == t) = true := by
        simp only [Bool.and_eq_true, beq_iff_eq] at hx ⊢
        intro hc
        exact h ⟨hc.1.1 ▸ hx.1.1, hc.1.2 ▸ hx.1.2, hc.2 ▸ hx.2⟩
      simp only [removeMapping, List.filter_cons, hx] at ih ⊢
      simpa [findMapping, List.find?_cons, hxne] using ih
    · simp only [removeMapping, List.filter_cons, hx] at ih ⊢
      by_cases hx2 : (x.sourceId == sid && x.source == s && x.target == t) = true
      · simp [findMapping, List.find?_cons, hx2]
      · simpa [findMapping, List.find?_cons, hx2] using ih

theorem findMapping_eq_none_iff (sid : String) (s t : CalendarSource)
    (st : List SyncMapping) :
    findMapping sid s t st = none ↔
      ∀ m ∈ st, ¬(m.sourceId = sid ∧ m.source = s ∧ m.target = t) := by
  rw [findMapping, List.find?_eq_none]
  constructor
  · intro h m hmem hc
    exact h m hmem (by simp [hc.1, hc.2.1, hc.2.2])
  · intro h m hmem hc
    simp only [Bool.and_eq_true, beq_iff_eq] at hc
    exact h m hmem ⟨hc.1.1, hc.1.2, hc.2⟩

theorem upsert_append_of_absent (m : SyncMapping) (st : List SyncMapping)
    (h : findMapping m.sourceId m.source m.target st = none) :
    upsertMapping m st = st ++ [m] := by
  induction st with
  | nil => rfl
  | cons x xs ih =>
    rw [findMapping, List.find?_cons] at h
    by_cases hx : (x.sourceId == m.sourceId && x.source == m.source &&
        x.target == m.target) = true
    · simp [hx] at h
    · have hk : ¬ keyEq x m = true := by simpa [keyEq] using hx
      simp only [upsertMapping, hk, if_neg, Bool.not_eq_true, List.cons_append]
      simp only [hx, Bool.false_eq_true, if_false] at h
      rw [ih h]

theorem upsert_length_of_present (m : SyncMapping) (st : List SyncMapping)
    (h : (findMapping m.sourceId m.source m.target st).isSome) :
    (upsertMapping m st).length = st.length := by
  induction st with
  | nil => simp [findMapping] at h
  | cons x xs ih =>
    by_cases hk : keyEq x m
    · simp [upsertMapping, hk]
    · have hxne : ¬(x.sourceId == m.sourceId && x.source == m.source &&
          x.target == m.target) = true := by simpa [keyEq] using hk
      rw [findMapping, List.find?_cons] at h
      simp only [hxne, Bool.false_eq_true, if_false] at h
      simp only [upsertMapping, hk, if_neg, Bool.not_eq_true, List.length_cons]
      rw [ih h]

/-- C9: in any store state reachable from the empty store by upserts and
removes there is at most one row per composite key `(sourceId, source,
target)`; `upsertMapping` replaces the row when the key is present (same
length) and appends otherwise; `findMapping` returns exactly the row of the
requested key, and returns nothing exactly when no such row exists. -/
theorem store_composite_key_unique :
    (∀ ops : List StoreOp, KeysUnique (applyOps ops []))
    ∧ (∀ (m : SyncMapping) (st : List SyncMapping),
        findMapping m.sourceId m.source m.target (upsertMapping m st) = some m)
    ∧ (∀ (m : SyncMapping) (st : List SyncMapping) (sid : String)
        (s t : CalendarSource), ¬(sid = m.sourceId ∧ s = m.source ∧ t = m.target) →
        findMapping sid s t (upsertMapping m st) = findMapping sid s t st)
    ∧ (∀ (sid : String) (s t : CalendarSource) (st : List SyncMapping)
        (m : SyncMapping), findMapping sid s t st = some m →
        m ∈ st ∧ m.sourceId = sid ∧ m.source = s ∧ m.target = t)
    ∧ (∀ (sid : String) (s t : CalendarSource) (st : List SyncMapping),
        findMapping sid s t st = none ↔
          ∀ m ∈ st, ¬(m.sourceId = sid ∧ m.source = s ∧ m.target = t))
    ∧ (∀ (m : SyncMapping) (st : List SyncMapping),
        findMapping m.sourceId m.source m.target st = none →
        upsertMapping m st = st ++ [m])
    ∧ (∀ (m : SyncMapping) (st : List SyncMapping),
        (findMapping m.sourceId m.source m.target st).isSome →
        (upsertMapping m st).length = st.length) := by
  refine ⟨?_, findMapping_upsert_self, ?_, ?_, findMapping_eq_none_iff,
    upsert_append_of_absent, upsert_length_of_present⟩
  · intro ops
    suffices h : ∀ st : List SyncMapping, KeysUnique st →
        KeysUnique (applyOps ops st) from h [] (by simp [KeysUnique])
    induction ops with
    | nil => intro st h; simpa [applyOps] using h
    | cons op rest ih =>
      intro st h
      have h1 : KeysUnique (applyOp st op) := by
        cases op with
        | upsert m => exact keysUnique_upsert m h
        | remove sid s t => exact keysUnique_remove sid s t h
      simpa [applyOps] using ih (applyOp st op) h1
  · intro m st sid s t h
    exact findMapping_upsert_other m st sid s t h
  · intro sid s t st m h
    exact findMapping_eq_some h

/-- Witness for C9 at concrete inputs: an upserted row is found again under
its key, and a lookup in the empty store is empty. -/
theorem store_composite_key_unique_witness :
    findMapping "e1" CalendarSource.dooray CalendarSource.google
      (upsertMapping ⟨"e1", CalendarSource.dooray, "t1",
        CalendarSource.google, "2026-01-01", none⟩ []) =
      some ⟨"e1", CalendarSource.dooray, "t1", CalendarSource.google,
        "2026-01-01", none⟩
    ∧ KeysUnique (applyOps [StoreOp.upsert ⟨"e1", CalendarSource.dooray, "t1",
        CalendarSource.google, "2026-01-01", none⟩] []) := by
  constructor
  · exact store_composite_key_unique.2.1
      ⟨"e1", CalendarSource.dooray, "t1", CalendarSource.google,
        "2026-01-01", none⟩ []
  · exact store_composite_key_unique.1
      [StoreOp.upsert ⟨"e1", CalendarSource.dooray, "t1",
        CalendarSource.google, "2026-01-01", none⟩]

/-- C10: the two reverse lookups agree: `isSyncedEvent e c` holds exactly
when `e` is in the set built by `getSyncedTargetIds c`; both match
`targetId` against rows whose `target` is `c`, ignoring `sourceId` and
`source`. -/
theorem isSyncedEvent_iff_mem_getSyncedTargetIds
    (st : List SyncMapping) (e : String) (c : CalendarSource) :
    isSyncedEvent e c st = true ↔ e ∈ getSyncedTargetIds c st := by
  simp only [isSyncedEvent, getSyncedTargetIds, List.any_eq_true,
    List.mem_map, List.mem_filter, Bool.and_eq_true, beq_iff_eq]
  constructor
  · rintro ⟨m, hmem, hid, htgt⟩
    exact ⟨m, ⟨hmem, htgt⟩, hid⟩
  · rintro ⟨m, ⟨hmem, htgt⟩, hid⟩
    exact ⟨m, hmem, hid, htgt⟩

/-! Trace lemmas: which edge and which visibility each recorded operation
carries. -/

theorem processEvent_ops (ad : Adapters) (now : String)
    (source target : CalendarSource) (vis : EventVisibility)
    (e : CalendarEvent) (st : List SyncMapping) :
    ∀ op ∈ (processEvent ad now source target vis e st).ops,
      op.src = source ∧ op.vis = some vis := by
  intro op hop
  unfold processEvent at hop
  repeat' split at hop
  all_goals simp_all [Op.src, Op.vis]

theorem syncEventsToTarget_ops (ad : Adapters) (now : String)
    (source target : CalendarSource) (vis : EventVisibility) :
    ∀ (events : List CalendarEvent) (st : List SyncMapping),
      ∀ op ∈ (syncEventsToTarget ad now source target vis events st).ops,
        op.src = source ∧ op.vis = some vis := by
  intro events
  induction events with
  | nil => intro st op hop; simp [syncEventsToTarget] at hop
  | cons e rest ih =>
    intro st op hop
    simp only [syncEventsToTarget, List.mem_append] at hop
    rcases hop with hop | hop
    · exact processEvent_ops ad now source target vis e st op hop
    · exact ih _ op hop

theorem syncToTargets_ops (ad : Adapters) (now : String)
    (source : CalendarSource) (events : List CalendarEvent) :
    ∀ (targets : List CalendarSource) (st : List SyncMapping),
      ∀ op ∈ (syncToTargets ad now source events targets st).ops,
        op.src = source ∧ op.vis = some (getVisibility source) := by
  intro targets
  induction targets with
  | nil => intro st op hop; simp [syncToTargets] at hop
  | cons t rest ih =>
    intro st op hop
    by_cases ht : (t == source) = true
    · rw [syncToTargets, if_pos ht] at hop
      exact ih st op hop
    · rw [syncToTargets, if_neg ht] at hop
      simp only [List.mem_append] at hop
      rcases hop with hop | hop
      · exact syncEventsToTarget_ops ad now source t (getVisibility source)
          events st op hop
      · exact ih _ op hop

theorem propagate_ops (ad : Adapters) (now : String)
    (clients : List CalendarSource) :
    ∀ (L : List (CalendarSource × List CalendarEvent)) (st : List SyncMapping),
      ∀ op ∈ (propagate ad now clients L st).ops,
        op.vis = some (getVisibility op.src) ∧ op.src ∈ L.map Prod.fst := by
  intro L
  induction L with
  | nil => intro st op hop; simp [propagate] at hop
  | cons p rest ih =>
    intro st op hop
    obtain ⟨source, events⟩ := p
    simp only [propagate, List.mem_append] at hop
    rcases hop with hop | hop
    · obtain ⟨hsrc, hvis⟩ := syncToTargets_ops ad now source events clients
        st op hop
      exact ⟨by rw [hvis, hsrc], by simp [hsrc]⟩
    · obtain ⟨hvis, hmem⟩ := ih _ op hop
      exact ⟨hvis, by simp only [List.map_cons, List.mem_cons]; exact Or.inr hmem⟩

theorem cleanupEdge_ops (ad : Adapters) (source target : CalendarSource)
    (sourceIds : List String) :
    ∀ (snap : List SyncMapping) (st : List SyncMapping),
      ∀ op ∈ (cleanupEdge ad source target sourceIds snap st).ops,
        op.src = source ∧ op.vis = none := by
  intro snap
  induction snap with
  | nil => intro st op hop; simp [cleanupEdge] at hop
  | cons m rest ih =>
    intro st op hop
    by_cases hin : (sourceIds.contains m.sourceId) = true
    · rw [cleanupEdge, if_pos hin] at hop
      exact ih st op hop
    · rw [cleanupEdge, if_neg hin] at hop
      by_cases hdel : (ad.deleteEvent target m.targetId) = true
      · rw [if_pos hdel] at hop
        simp only [List.mem_cons] at hop
        rcases hop with rfl | hop
        · exact ⟨rfl, rfl⟩
        · exact ih _ op hop
      · rw [if_neg hdel] at hop
        simp only [List.mem_cons] at hop
        rcases hop with rfl | hop
        · exact ⟨rfl, rfl⟩
        · exact ih _ op hop

theorem cleanupTargets_ops (ad : Adapters) (source : CalendarSource)
    (sourceIds : List String) :
    ∀ (targets : List CalendarSource) (st : List SyncMapping),
      ∀ op ∈ (cleanupTargets ad source sourceIds targets st).ops,
        op.src = source ∧ op.vis = none := by
  intro targets
  induction targets with
  | nil => intro st op hop; simp [cleanupTargets] at hop
  | cons t rest ih =>
    intro st op hop
    by_cases ht : (t == source) = true
    · rw [cleanupTargets, if_pos ht] at hop
      exact ih st op hop
    · rw [cleanupTargets, if_neg ht] at hop
      simp only [List.mem_append] at hop
      rcases hop with hop | hop
      · exact cleanupEdge_ops ad source t sourceIds _ st op hop
      · exact ih _ op hop

theorem cleanupDeletedEvents_ops (ad : Adapters)
    (clients : List CalendarSource) :
    ∀ (L : List (CalendarSource × List CalendarEvent)) (st : List SyncMapping),
      ∀ op ∈ (cleanupDeletedEvents ad clients L st).ops,
        op.vis = none ∧ op.src ∈ L.map Prod.fst := by
  intro L
  induction L with
  | nil => intro st op hop; simp [cleanupDeletedEvents] at hop
  | cons p rest ih =>
    intro st op hop
    obtain ⟨source, events⟩ := p
    simp only [cleanupDeletedEvents, List.mem_append] at hop
    rcases hop with hop | hop
    · obtain ⟨hsrc, hvis⟩ := cleanupTargets_ops ad source _ clients st op hop
      exact ⟨hvis, by simp [hsrc]⟩
    · obtain ⟨hvis, hmem⟩ := ih _ op hop
      exact ⟨hvis, by simp only [List.map_cons, List.mem_cons]; exact Or.inr hmem⟩

/-- C1: the visibility the engine passes to a target adapter is a pure
function of the edge source alone — `public` exactly for the workplace
calendar (dooray), `private` for google and apple — and neither the engine
trace nor any adapter transform reads the visibility field of the fetched
event. -/
theorem visibility_pure_function_of_source (ad : Adapters)
    (fetch : CalendarSource → Option (List CalendarEvent)) (now : String)
    (clients : List CalendarSource) (st : List SyncMapping) :
    (∀ op ∈ (sync ad fetch now clients st).ops,
      ∀ v, op.vis = some v → v = getVisibility op.src)
    ∧ getVisibility CalendarSource.dooray = EventVisibility.pub
    ∧ getVisibility CalendarSource.google = EventVisibility.priv
    ∧ getVisibility CalendarSource.apple = EventVisibility.priv
    ∧ (∀ (e : CalendarEvent) (x : EventVisibility) (v : EventVisibility),
        Google.toGoogleEvent { e with visibility := x } v =
          Google.toGoogleEvent e v)
    ∧ (∀ (uid : String) (e : CalendarEvent) (x v : EventVisibility)
        (n2 : String), DoorayCalDAV.toICal uid { e with visibility := x } v n2 =
          DoorayCalDAV.toICal uid e v n2)
    ∧ (∀ (uid : String) (e : CalendarEvent) (x v : EventVisibility)
        (n2 : String), Apple.toICal uid { e with visibility := x } v n2 =
          Apple.toICal uid e v n2)
    ∧ (∀ (e : CalendarEvent) (x v : EventVisibility),
        DoorayRest.toRequestBody { e with visibility := x } v =
          DoorayRest.toRequestBody e v) := by
  refine ⟨?_, rfl, rfl, rfl, fun e x v => rfl, fun uid e x v n2 => rfl,
    fun uid e x v n2 => rfl, fun e x v => rfl⟩
  intro op hop v hvis
  simp only [sync, List.mem_append] at hop
  rcases hop with hop | hop
  · obtain ⟨h1, _⟩ := propagate_ops ad now clients _ st op hop
    rw [h1] at hvis
    exact (Option.some_inj.mp hvis).symm
  · obtain ⟨h1, _⟩ := cleanupDeletedEvents_ops ad clients _ _ op hop
    rw [h1] at hvis
    cases hvis

/-- Witness for C1: the first scenario run records the create of `evt-1`
towards google with exactly the visibility computed from its source. -/
theorem visibility_pure_function_of_source_witness :
    EventVisibility.pub = getVisibility CalendarSource.dooray := by
  exact (visibility_pure_function_of_source happyAdapters fetchScenario1 "t1"
      threeClients []).1
    (Op.create CalendarSource.dooray CalendarSource.google teamSyncEvent
      EventVisibility.pub)
    (by decide) EventVisibility.pub rfl

theorem privateNotice_ne_empty : (privateNotice != "") = true := by decide

/-- C2 (amended): the Google transform, the Dooray CalDAV transform and the
Apple transform redact a private mirror — output independent of the
original description and location, title marked, description replaced by
the fixed notice, location dropped — while the REST Dooray transform
passes title, description and location through verbatim and only sets
`scope = "private"`. -/
theorem redaction_private_by_adapter (uid now : String) (e : CalendarEvent) :
    (Google.toGoogleEvent e EventVisibility.priv =
      Google.toGoogleEvent { e with description := none, location := none }
        EventVisibility.priv
    ∧ (Google.toGoogleEvent e EventVisibility.priv).summary =
        lockMarker ++ e.title
    ∧ (Google.toGoogleEvent e EventVisibility.priv).description = privateNotice
    ∧ (Google.toGoogleEvent e EventVisibility.priv).location = none
    ∧ (Google.toGoogleEvent e EventVisibility.priv).transparency = some "opaque")
    ∧ (DoorayCalDAV.toICal uid e EventVisibility.priv now =
      DoorayCalDAV.toICal uid { e with description := none, location := none }
        EventVisibility.priv now
    ∧ ("SUMMARY:" ++ DoorayCalDAV.escapeICal (lockMarker ++ e.title)) ∈
        DoorayCalDAV.toICal uid e EventVisibility.priv now
    ∧ ("DESCRIPTION:" ++ DoorayCalDAV.escapeICal privateNotice) ∈
        DoorayCalDAV.toICal uid e EventVisibility.priv now
    ∧ "CLASS:PRIVATE" ∈ DoorayCalDAV.toICal uid e EventVisibility.priv now)
    ∧ (Apple.toICal uid e EventVisibility.priv now =
      Apple.toICal uid { e with description := none, location := none }
        EventVisibility.priv now
    ∧ ("SUMMARY:" ++ Apple.escapeICal (lockMarker ++ e.title)) ∈
        Apple.toICal uid e EventVisibility.priv now
    ∧ ("DESCRIPTION:" ++ Apple.escapeICal privateNotice) ∈
        Apple.toICal uid e EventVisibility.priv now
    ∧ "CLASS:PRIVATE" ∈ Apple.toICal uid e EventVisibility.priv now)
    ∧ ((DoorayRest.toRequestBody e EventVisibility.priv).subject = e.title
    ∧ (DoorayRest.toRequestBody e EventVisibility.priv).body.content =
        e.description.getD ""
    ∧ (DoorayRest.toRequestBody e EventVisibility.priv).location =
        (if strTruthy e.location then e.location else none)
    ∧ (DoorayRest.toRequestBody e EventVisibility.priv).scope =
        some "private") := by
  refine ⟨⟨?_, ?_, ?_, ?_, ?_⟩, ⟨?_, ?_, ?_, ?_⟩, ⟨?_, ?_, ?_, ?_⟩,
    ⟨?_, ?_, ?_, ?_⟩⟩
  · cases ho : e.isOwnCalendar == some false <;>
      cases hr : strTruthy e.recurrence <;> simp [Google.toGoogleEvent, ho, hr]
  · cases ho : e.isOwnCalendar == some false <;>
      cases hr : strTruthy e.recurrence <;> simp [Google.toGoogleEvent, ho, hr]
  · cases ho : e.isOwnCalendar == some false <;>
      cases hr : strTruthy e.recurrence <;> simp [Google.toGoogleEvent, ho, hr]
  · cases ho : e.isOwnCalendar == some false <;>
      cases hr : strTruthy e.recurrence <;> simp [Google.toGoogleEvent, ho, hr]
  · cases ho : e.isOwnCalendar == some false <;>
      cases hr : strTruthy e.recurrence <;> simp [Google.toGoogleEvent, ho, hr]
  · cases hr : strTruthy e.recurrence <;>
      simp [DoorayCalDAV.toICal, hr, privateNotice_ne_empty]
  · cases hr : strTruthy e.recurrence <;>
      simp [DoorayCalDAV.toICal, hr, privateNotice_ne_empty]
  · cases hr : strTruthy e.recurrence <;>
      simp [DoorayCalDAV.toICal, hr, privateNotice_ne_empty]
  · cases hr : strTruthy e.recurrence <;>
      simp [DoorayCalDAV.toICal, hr, privateNotice_ne_empty]
  · cases hr : strTruthy e.recurrence <;>
      simp [Apple.toICal, hr, privateNotice_ne_empty]
  · cases hr : strTruthy e.recurrence <;>
      simp [Apple.toICal, hr, privateNotice_ne_empty]
  · cases hr : strTruthy e.recurrence <;>
      simp [Apple.toICal, hr, privateNotice_ne_empty]
  · cases hr : strTruthy e.recurrence <;>
      simp [Apple.toICal, hr, privateNotice_ne_empty]
  · cases hl : strTruthy e.location <;>
      cases hr : strTruthy e.recurrence <;>
        simp [DoorayRest.toRequestBody, hl, hr]
  · cases hl : strTruthy e.location <;>
      cases hr : strTruthy e.recurrence <;>
        simp [DoorayRest.toRequestBody, hl, hr]
  · cases hl : strTruthy e.location <;>
      cases hr : strTruthy e.recurrence <;>
        simp [DoorayRest.toRequestBody, hl, hr]
  · cases hl : strTruthy e.location <;>
      cases hr : strTruthy e.recurrence <;>
        simp [DoorayRest.toRequestBody, hl, hr]

/-- Counterexample for C2: on a concrete private event the REST Dooray
transform sends the original description and location verbatim to the
target backend, does not mark the title, and does not replace the
description with the fixed notice. -/
theorem redaction_counterexample :
    (DoorayRest.toRequestBody leakEvent EventVisibility.priv).body.content =
      "secret-agenda"
    ∧ (DoorayRest.toRequestBody leakEvent EventVisibility.priv).location =
      some "Room 5"
    ∧ (DoorayRest.toRequestBody leakEvent EventVisibility.priv).subject =
      "Confidential sync"
    ∧ (DoorayRest.toRequestBody leakEvent EventVisibility.priv).scope =
      some "private"
    ∧ ¬((DoorayRest.toRequestBody leakEvent EventVisibility.priv).body.content
      = privateNotice) := by
  refine ⟨rfl, by decide, rfl, by decide, by decide⟩

/-- C4: with a mapping present the engine calls the target adapter update
exactly when the event updatedAt is truthy, the stored sourceUpdatedAt is
truthy, and the two differ — and then with `(mapping.targetId, event,
visibility)`; it never calls create once a mapping exists; and when the
origin supplies no truthy updatedAt the step is a strict no-op, so such an
event is never subsequently updated. -/
theorem update_call_decision (ad : Adapters) (now : String)
    (source target : CalendarSource) (vis : EventVisibility)
    (e : CalendarEvent) (st : List SyncMapping) (m : SyncMapping)
    (hm : findMapping e.sourceId source target st = some m) :
    ((∃ op ∈ (processEvent ad now source target vis e st).ops,
        op.isUpdate = true) ↔
      (strTruthy e.updatedAt = true ∧ strTruthy m.sourceUpdatedAt = true ∧
        e.updatedAt ≠ m.sourceUpdatedAt))
    ∧ (∀ op ∈ (processEvent ad now source target vis e st).ops,
        op.isUpdate = true → op = Op.update source target m.targetId e vis)
    ∧ (∀ op ∈ (processEvent ad now source target vis e st).ops,
        op.isCreate = false)
    ∧ (strTruthy e.updatedAt = false →
        processEvent ad now source target vis e st =
          ⟨st, emptyResult, []⟩) := by
  by_cases hnu : needsUpdate e m = true
  · have hsplit : strTruthy e.updatedAt = true ∧
        strTruthy m.sourceUpdatedAt = true ∧
        e.updatedAt ≠ m.sourceUpdatedAt := by
      have := hnu
      unfold needsUpdate at this
      simp only [Bool.and_eq_true, Bool.not_eq_true', beq_eq_false_iff_ne,
        ne_eq] at this
      exact ⟨this.1.1, this.1.2, this.2⟩
    refine ⟨?_, ?_, ?_, ?_⟩
    · constructor
      · intro _; exact hsplit
      · intro _
        by_cases hup : ad.updateEvent target m.targetId e vis = true
        · refine ⟨Op.update source target m.targetId e vis, ?_, rfl⟩
          simp [processEvent, hm, hnu, hup]
        · refine ⟨Op.update source target m.targetId e vis, ?_, rfl⟩
          simp [processEvent, hm, hnu, hup]
    · intro op hop _
      by_cases hup : ad.updateEvent target m.targetId e vis = true <;>
        simp only [processEvent, hm, hnu, hup, if_true, Bool.false_eq_true,
          if_false, List.mem_singleton] at hop <;> exact hop
    · intro op hop
      by_cases hup : ad.updateEvent target m.targetId e vis = true <;>
        simp only [processEvent, hm, hnu, hup, if_true, Bool.false_eq_true,
          if_false, List.mem_singleton] at hop <;> simp [hop, Op.isCreate]
    · intro habs
      rw [needsUpdate, habs] at hnu
      simp at hnu
  · refine ⟨?_, ?_, ?_, ?_⟩
    · constructor
      · intro h
        obtain ⟨op, hop, _⟩ := h
        simp [processEvent, hm, hnu] at hop
      · intro h
        exfalso
        apply hnu
        unfold needsUpdate
        simp only [Bool.and_eq_true, Bool.not_eq_true', beq_eq_false_iff_ne,
          ne_eq]
        exact ⟨⟨h.1, h.2.1⟩, h.2.2⟩
    · intro op hop
      simp [processEvent, hm, hnu] at hop
    · intro op hop
      simp [processEvent, hm, hnu] at hop
    · intro _
      simp [processEvent, hm, hnu]

/-- Witness for C4 at a concrete mapping and event: the changed stamp makes
the step emit an update operation. -/
theorem update_call_decision_witness :
    ∃ op ∈ (processEvent happyAdapters "t9" CalendarSource.dooray
      CalendarSource.google EventVisibility.pub teamSyncEvent
      [⟨"evt-1", CalendarSource.dooray, "g-id", CalendarSource.google, "t0",
        some "older"⟩]).ops, op.isUpdate = true := by
  exact (update_call_decision happyAdapters "t9" CalendarSource.dooray
    CalendarSource.google EventVisibility.pub teamSyncEvent
    [⟨"evt-1", CalendarSource.dooray, "g-id", CalendarSource.google, "t0",
      some "older"⟩]
    ⟨"evt-1", CalendarSource.dooray, "g-id", CalendarSource.google, "t0",
      some "older"⟩ (by decide)).1.mpr (by decide)

/-- C6: within one pair, a create rejected for E1 but accepted for E2
leaves exactly one error entry naming E1 and its edge, still creates and
counts E2, and leaves the store rows of the key of E1 unchanged; the loop
itself returns a result instead of raising. -/
theorem create_failure_isolation (ad : Adapters) (now : String)
    (source target : CalendarSource) (vis : EventVisibility)
    (E1 E2 : CalendarEvent) (st : List SyncMapping) (tid : String)
    (h1 : findMapping E1.sourceId source target st = none)
    (h2 : findMapping E2.sourceId source target st = none)
    (hne : E1.sourceId ≠ E2.sourceId)
    (hf : ad.createEvent target E1 vis = none)
    (hs : ad.createEvent target E2 vis = some tid) :
    (syncEventsToTarget ad now source target vis [E1, E2] st).result.errors =
      [⟨E1.sourceId, source, target, writeFailMsg⟩]
    ∧ (syncEventsToTarget ad now source target vis [E1, E2] st).result.created = 1
    ∧ findMapping E2.sourceId source target
        (syncEventsToTarget ad now source target vis [E1, E2] st).store =
      some ⟨E2.sourceId, source, tid, target, now, E2.updatedAt⟩
    ∧ findMapping E1.sourceId source target
        (syncEventsToTarget ad now source target vis [E1, E2] st).store =
      findMapping E1.sourceId source target st := by
  have hstore : (syncEventsToTarget ad now source target vis [E1, E2] st).store =
      upsertMapping ⟨E2.sourceId, source, tid, target, now, E2.updatedAt⟩ st := by
    simp [syncEventsToTarget, processEvent, h1, h2, hf, hs]
  refine ⟨?_, ?_, ?_, ?_⟩
  · simp [syncEventsToTarget, processEvent, h1, h2, hf, hs, addResult,
      emptyResult]
  · simp [syncEventsToTarget, processEvent, h1, h2, hf, hs, addResult,
      emptyResult]
  · rw [hstore]
    exact findMapping_upsert_self
      ⟨E2.sourceId, source, tid, target, now, E2.updatedAt⟩ st
  · rw [hstore]
    exact findMapping_upsert_other
      ⟨E2.sourceId, source, tid, target, now, E2.updatedAt⟩ st
      E1.sourceId source target (fun hc => hne hc.1)

/-- Witness for C6: concrete two-event pair in which the first create is
rejected and the second accepted. -/
theorem create_failure_isolation_witness :
    (syncEventsToTarget
      ⟨fun _ e _ => if e.sourceId == "e1" then none else some "tid-2",
        fun _ _ _ _ => true, fun _ _ => true⟩
      "tw" CalendarSource.google CalendarSource.apple EventVisibility.priv
      [{ teamSyncEvent with sourceId := "e1", source := CalendarSource.google },
       { teamSyncEvent with sourceId := "e2", source := CalendarSource.google }]
      []).result.errors =
      [⟨"e1", CalendarSource.google, CalendarSource.apple, writeFailMsg⟩] := by
  exact (create_failure_isolation
    ⟨fun _ e _ => if e.sourceId == "e1" then none else some "tid-2",
      fun _ _ _ _ => true, fun _ _ => true⟩
    "tw" CalendarSource.google CalendarSource.apple EventVisibility.priv
    { teamSyncEvent with sourceId := "e1", source := CalendarSource.google }
    { teamSyncEvent with sourceId := "e2", source := CalendarSource.google }
    [] "tid-2" rfl rfl (by decide) rfl rfl).1

/-- Counterexample for C8: in the README three-calendar scenario the first
run issues 2 create calls, not 4. -/
theorem scenario_counterexample :
    (scenarioRun1.ops.filter Op.isCreate).length = 2
    ∧ ¬((scenarioRun1.ops.filter Op.isCreate).length = 4) := by decide

/-- C8 (amended): first run issues exactly the 2 creates W→P1 and W→P2 of
`evt-1` as public and ends with 2 mapping rows for `evt-1`; the second run
creates and updates nothing; the third run issues the 2 deletes, removes
both rows and reports `deleted = 2`. -/
theorem scenario_three_runs :
    scenarioRun1.ops.filter Op.isCreate =
      [Op.create CalendarSource.dooray CalendarSource.google teamSyncEvent
        EventVisibility.pub,
       Op.create CalendarSource.dooray CalendarSource.apple teamSyncEvent
        EventVisibility.pub]
    ∧ scenarioRun1.result.created = 2
    ∧ scenarioRun1.store.length = 2
    ∧ (∀ m ∈ scenarioRun1.store, m.sourceId = "evt-1")
    ∧ scenarioRun2.result.created = 0
    ∧ scenarioRun2.result.updated = 0
    ∧ scenarioRun3.ops.filter Op.isDelete =
      [Op.delete CalendarSource.dooray CalendarSource.google "g-id",
       Op.delete CalendarSource.dooray CalendarSource.apple "a-id"]
    ∧ scenarioRun3.result.deleted = 2
    ∧ scenarioRun3.store = [] := by
  decide

/-! Store-preservation lemmas: which keys each engine phase can touch. -/

theorem processEvent_preserve (ad : Adapters) (now : String)
    (source target : CalendarSource) (vis : EventVisibility)
    (e : CalendarEvent) (st : List SyncMapping) (sid : String)
    (s t : CalendarSource)
    (h : ¬(sid = e.sourceId ∧ s = source ∧ t = target)) :
    findMapping sid s t (processEvent ad now source target vis e st).store =
      findMapping sid s t st := by
  cases hfm : findMapping e.sourceId source target st with
  | some existing =>
    obtain ⟨_, hid, hsrc, htgt⟩ := findMapping_eq_some hfm
    by_cases hnu : needsUpdate e existing = true
    · by_cases hup : ad.updateEvent target existing.targetId e vis = true
      · simp only [processEvent, hfm, hnu, hup, if_true]
        apply findMapping_upsert_other
        intro hc
        exact h ⟨hc.1.trans hid, hc.2.1.trans hsrc, hc.2.2.trans htgt⟩
      · simp [processEvent, hfm, hnu, hup]
    · simp [processEvent, hfm, hnu]
  | none =>
    cases hcr : ad.createEvent target e vis with
    | some tid =>
      simp only [processEvent, hfm, hcr]
      apply findMapping_upsert_other
      intro hc
      exact h ⟨hc.1, hc.2.1, hc.2.2⟩
    | none => simp [processEvent, hfm, hcr]

theorem syncEventsToTarget_preserve (ad : Adapters) (now : String)
    (source target : CalendarSource) (vis : EventVisibility) (sid : String)
    (s t : CalendarSource) :
    ∀ (events : List CalendarEvent) (st : List SyncMapping),
      (∀ e ∈ events, ¬(sid = e.sourceId ∧ s = source ∧ t = target)) →
      findMapping sid s t
        (syncEventsToTarget ad now source target vis events st).store =
        findMapping sid s t st := by
  intro events
  induction events with
  | nil => intro st _; simp [syncEventsToTarget]
  | cons e rest ih =>
    intro st h
    show findMapping sid s t (syncEventsToTarget ad now source target vis rest
      (processEvent ad now source target vis e st).store).store =
      findMapping sid s t st
    rw [ih _ (fun e' he' => h e' (List.mem_cons_of_mem e he')),
      processEvent_preserve ad now source target vis e st sid s t
        (h e (List.mem_cons_self e rest))]

theorem syncToTargets_preserve (ad : Adapters) (now : String)
    (source : CalendarSource) (events : List CalendarEvent) (sid : String)
    (s t : CalendarSource) :
    ∀ (targets : List CalendarSource) (st : List SyncMapping),
      (∀ tgt ∈ targets, ∀ e ∈ events,
        ¬(sid = e.sourceId ∧ s = source ∧ t = tgt)) →
      findMapping sid s t (syncToTargets ad now source events targets st).store =
        findMapping sid s t st := by
  intro targets
  induction targets with
  | nil => intro st _; simp [syncToTargets]
  | cons tgt rest ih =>
    intro st h
    by_cases ht : (tgt == source) = true
    · rw [syncToTargets, if_pos ht]
      exact ih st (fun t' ht' => h t' (List.mem_cons_of_mem tgt ht'))
    · rw [syncToTargets, if_neg ht]
      show findMapping sid s t (syncToTargets ad now source events rest
        (syncEventsToTarget ad now source tgt (getVisibility source) events
          st).store).store = findMapping sid s t st
      rw [ih _ (fun t' ht' => h t' (List.mem_cons_of_mem tgt ht')),
        syncEventsToTarget_preserve ad now source tgt (getVisibility source)
          sid s t events st (h tgt (List.mem_cons_self tgt rest))]

theorem propagate_preserve (ad : Adapters) (now : String)
    (clients : List CalendarSource) (sid : String) (s t : CalendarSource) :
    ∀ (L : List (CalendarSource × List CalendarEvent)) (st : List SyncMapping),
      (∀ p ∈ L, ∀ tgt ∈ clients, ∀ e ∈ p.snd,
        ¬(sid = e.sourceId ∧ s = p.fst ∧ t = tgt)) →
      findMapping sid s t (propagate ad now clients L st).store =
        findMapping sid s t st := by
  intro L
  induction L with
  | nil => intro st _; simp [propagate]
  | cons p rest ih =>
    intro st h
    obtain ⟨source, events⟩ := p
    show findMapping sid s t (propagate ad now clients rest
      (syncToTargets ad now source events clients st).store).store =
      findMapping sid s t st
    rw [ih _ (fun q hq => h q (List.mem_cons_of_mem _ hq)),
      syncToTargets_preserve ad now source events sid s t clients st
        (fun tgt htgt e he =>
          h (source, events) (List.mem_cons_self _ rest) tgt htgt e he)]

theorem fm_none_of_filter (sid : String) (s t : CalendarSource)
    (st : List SyncMapping) (p : SyncMapping → Bool)
    (h : findMapping sid s t st = none) :
    findMapping sid s t (st.filter p) = none := by
  rw [findMapping, List.find?_eq_none] at h ⊢
  intro x hx
  exact h x (List.mem_of_mem_filter hx)

theorem cleanupEdge_preserve (ad : Adapters) (source target : CalendarSource)
    (ids : List String) (sid : String) (s t : CalendarSource) :
    ∀ (snap : List SyncMapping) (st : List SyncMapping),
      (∀ x ∈ snap, (sid = x.sourceId ∧ s = source ∧ t = target) →
        ids.contains x.sourceId = true ∨ ad.deleteEvent target x.targetId = false) →
      findMapping sid s t (cleanupEdge ad source target ids snap st).store =
        findMapping sid s t st := by
  intro snap
  induction snap with
  | nil => intro st _; simp [cleanupEdge]
  | cons x rest ih =>
    intro st h
    by_cases hin : (ids.contains x.sourceId) = true
    · rw [cleanupEdge, if_pos hin]
      exact ih st (fun y hy => h y (List.mem_cons_of_mem x hy))
    · rw [cleanupEdge, if_neg hin]
      by_cases hdel : (ad.deleteEvent target x.targetId) = true
      · rw [if_pos hdel]
        show findMapping sid s t (cleanupEdge ad source target ids rest
          (removeMapping x.sourceId source target st)).store =
          findMapping sid s t st
        rw [ih _ (fun y hy => h y (List.mem_cons_of_mem x hy))]
        apply findMapping_remove_other
        intro hc
        rcases h x (List.mem_cons_self x rest) hc with h1 | h1
        · exact hin h1
        · rw [hdel] at h1; cases h1
      · rw [if_neg hdel]
        show findMapping sid s t
          (cleanupEdge ad source target ids rest st).store =
          findMapping sid s t st
        exact ih st (fun y hy => h y (List.mem_cons_of_mem x hy))

theorem cleanupTargets_preserve (ad : Adapters) (source : CalendarSource)
    (ids : List String) (sid : String) (s t : CalendarSource)
    (hcase : s ≠ source ∨ ids.contains sid = true) :
    ∀ (targets : List CalendarSource) (st : List SyncMapping),
      findMapping sid s t (cleanupTargets ad source ids targets st).store =
        findMapping sid s t st := by
  intro targets
  induction targets with
  | nil => intro st; simp [cleanupTargets]
  | cons tgt rest ih =>
    intro st
    by_cases ht : (tgt == source) = true
    · rw [cleanupTargets, if_pos ht]
      exact ih st
    · rw [cleanupTargets, if_neg ht]
      show findMapping sid s t (cleanupTargets ad source ids rest
        (cleanupEdge ad source tgt ids
          (findMappingsByTarget source tgt st) st).store).store =
        findMapping sid s t st
      rw [ih, cleanupEdge_preserve ad source tgt ids sid s t _ st]
      intro x _ hc
      rcases hcase with h1 | h1
      · exact absurd hc.2.1 h1
      · rcases hc with ⟨hc1, _, _⟩
        rw [← hc1]
        exact Or.inl h1

theorem cleanupDeletedEvents_preserve (ad : Adapters)
    (clients : List CalendarSource) (sid : String) (s t : CalendarSource) :
    ∀ (L : List (CalendarSource × List CalendarEvent)) (st : List SyncMapping),
      (∀ p ∈ L, s ≠ p.fst ∨
        ((p.snd.map fun e => e.sourceId).contains sid) = true) →
      findMapping sid s t (cleanupDeletedEvents ad clients L st).store =
        findMapping sid s t st := by
  intro L
  induction L with
  | nil => intro st _; simp [cleanupDeletedEvents]
  | cons p rest ih =>
    intro st h
    obtain ⟨source, events⟩ := p
    show findMapping sid s t (cleanupDeletedEvents ad clients rest
      (cleanupTargets ad source (events.map fun e => e.sourceId) clients
        st).store).store = findMapping sid s t st
    rw [ih _ (fun q hq => h q (List.mem_cons_of_mem _ hq)),
      cleanupTargets_preserve ad source _ sid s t
        (h (source, events) (List.mem_cons_self _ rest)) clients st]

theorem goodFor_of_eq {e : CalendarEvent} {s t : CalendarSource}
    {st st' : List SyncMapping}
    (h : findMapping e.sourceId s t st' = findMapping e.sourceId s t st)
    (hg : goodFor e s t st) : goodFor e s t st' := by
  obtain ⟨m, hm, hnu⟩ := hg
  exact ⟨m, h.trans hm, hnu⟩

theorem findMapping_upsert_self_keys (m : SyncMapping)
    (st : List SyncMapping) (sid : String) (s t : CalendarSource)
    (h1 : m.sourceId = sid) (h2 : m.source = s) (h3 : m.target = t) :
    findMapping sid s t (upsertMapping m st) = some m := by
  subst h1; subst h2; subst h3
  exact findMapping_upsert_self m st

theorem needsUpdate_self_stamp (e : CalendarEvent) (m : SyncMapping)
    (h : m.sourceUpdatedAt = e.updatedAt) : needsUpdate e m = false := by
  simp [needsUpdate, h]

theorem processEvent_goodFor (ad : Adapters) (now : String)
    (source target : CalendarSource) (vis : EventVisibility)
    (e : CalendarEvent) (st : List SyncMapping)
    (hc : ∀ t' e' v', (ad.createEvent t' e' v').isSome = true)
    (hu : ∀ t' id e' v', ad.updateEvent t' id e' v' = true) :
    goodFor e source target (processEvent ad now source target vis e st).store := by
  cases hfm : findMapping e.sourceId source target st with
  | some existing =>
    obtain ⟨_, hid, hsrc, htgt⟩ := findMapping_eq_some hfm
    by_cases hnu : needsUpdate e existing = true
    · have hst : (processEvent ad now source target vis e st).store =
          upsertMapping
            { existing with lastSyncedAt := now, sourceUpdatedAt := e.updatedAt }
            st := by
        simp [processEvent, hfm, hnu, hu]
      rw [hst]
      refine ⟨_, findMapping_upsert_self_keys _ st e.sourceId source target
        hid hsrc htgt, needsUpdate_self_stamp e _ rfl⟩
    · have hst : (processEvent ad now source target vis e st).store = st := by
        simp [processEvent, hfm, hnu]
      rw [hst]
      exact ⟨existing, hfm, Bool.not_eq_true _ ▸ eq_false_of_ne_true hnu⟩
  | none =>
    obtain ⟨tid, htid⟩ := Option.isSome_iff_exists.mp (hc target e vis)
    have hst : (processEvent ad now source target vis e st).store =
        upsertMapping ⟨e.sourceId, source, tid, target, now, e.updatedAt⟩ st := by
      simp [processEvent, hfm, htid]
    rw [hst]
    exact ⟨_, findMapping_upsert_self_keys _ st e.sourceId source target
      rfl rfl rfl, needsUpdate_self_stamp e _ rfl⟩

theorem syncEventsToTarget_goodFor (ad : Adapters) (now : String)
    (source target : CalendarSource) (vis : EventVisibility)
    (hc : ∀ t' e' v', (ad.createEvent t' e' v').isSome = true)
    (hu : ∀ t' id e' v', ad.updateEvent t' id e' v' = true) :
    ∀ (events : List CalendarEvent) (st : List SyncMapping),
      ((events.map fun e => e.sourceId).Nodup) →
      ∀ e ∈ events, goodFor e source target
        (syncEventsToTarget ad now source target vis events st).store := by
  intro events
  induction events with
  | nil => intro st _ e he; cases he
  | cons e0 rest ih =>
    intro st hnd e he
    rw [List.map_cons, List.nodup_cons] at hnd
    rcases List.mem_cons.mp he with rfl | hmem
    · have h1 : goodFor e source target
          (processEvent ad now source target vis e st).store :=
        processEvent_goodFor ad now source target vis e st hc hu
      refine goodFor_of_eq ?_ h1
      show findMapping e.sourceId source target
        (syncEventsToTarget ad now source target vis rest
          (processEvent ad now source target vis e st).store).store = _
      apply syncEventsToTarget_preserve
      intro e' he' hcontra
      exact hnd.1 (hcontra.1 ▸ List.mem_map_of_mem (fun x => x.sourceId) he')
    · exact ih _ hnd.2 e hmem

theorem syncToTargets_goodFor (ad : Adapters) (now : String)
    (source : CalendarSource) (events : List CalendarEvent)
    (hc : ∀ t' e' v', (ad.createEvent t' e' v').isSome = true)
    (hu : ∀ t' id e' v', ad.updateEvent t' id e' v' = true)
    (hnd : (events.map fun e => e.sourceId).Nodup) :
    ∀ (targets : List CalendarSource) (st : List SyncMapping),
      ∀ t ∈ targets, t ≠ source → ∀ e ∈ events,
        goodFor e source t (syncToTargets ad now source events targets st).store := by
  intro targets
  induction targets with
  | nil => intro st t ht; cases ht
  | cons t0 rest ih =>
    intro st t ht hts e he
    by_cases htr : t ∈ rest
    · by_cases h0 : (t0 == source) = true
      · rw [syncToTargets, if_pos h0]
        exact ih st t htr hts e he
      · rw [syncToTargets, if_neg h0]
        show goodFor e source t (syncToTargets ad now source events rest
          (syncEventsToTarget ad now source t0 (getVisibility source) events
            st).store).store
        exact ih _ t htr hts e he
    · have ht0 : t = t0 := by
        rcases List.mem_cons.mp ht with h | h
        · exact h
        · exact absurd h htr
      subst ht0
      have h0 : ¬((t == source) = true) := by
        simpa [beq_iff_eq] using hts
      rw [syncToTargets, if_neg h0]
      show goodFor e source t (syncToTargets ad now source events rest
        (syncEventsToTarget ad now source t (getVisibility source) events
          st).store).store
      refine goodFor_of_eq ?_ (syncEventsToTarget_goodFor ad now source t
        (getVisibility source) hc hu events st hnd e he)
      apply syncToTargets_preserve
      intro tgt htgt e' _ hcontra
      exact htr (hcontra.2.2 ▸ htgt)

theorem propagate_goodFor (ad : Adapters) (now : String)
    (clients : List CalendarSource)
    (hc : ∀ t' e' v', (ad.createEvent t' e' v').isSome = true)
    (hu : ∀ t' id e' v', ad.updateEvent t' id e' v' = true) :
    ∀ (L : List (CalendarSource × List CalendarEvent)) (st : List SyncMapping),
      (∀ s evs1 evs2, (s, evs1) ∈ L → (s, evs2) ∈ L → evs1 = evs2) →
      (∀ s evs, (s, evs) ∈ L → ((evs.map fun e => e.sourceId).Nodup)) →
      ∀ p ∈ L, ∀ t ∈ clients, t ≠ p.fst → ∀ e ∈ p.snd,
        goodFor e p.fst t (propagate ad now clients L st).store := by
  intro L
  induction L with
  | nil => intro st _ _ p hp; cases hp
  | cons q rest ih =>
    intro st hfun hnd p hp t htc hts e he
    obtain ⟨s0, evs0⟩ := q
    rcases List.mem_cons.mp hp with rfl | hmem
    · by_cases hsrest : s0 ∈ rest.map Prod.fst
      · obtain ⟨r, hr, hrf⟩ := List.mem_map.mp hsrest
        have hrmem : (s0, r.snd) ∈ rest := by
          have hre : r = (s0, r.snd) := by
            rw [← hrf]
          rw [← hre]; exact hr
        have hevs : r.snd = evs0 :=
          hfun s0 r.snd evs0 (List.mem_cons_of_mem _ hrmem)
            (List.mem_cons_self _ rest)
        show goodFor e s0 t (propagate ad now clients rest
          (syncToTargets ad now s0 evs0 clients st).store).store
        have hout := ih ((syncToTargets ad now s0 evs0 clients st).store)
          (fun s a b ha hb =>
            hfun s a b (List.mem_cons_of_mem _ ha) (List.mem_cons_of_mem _ hb))
          (fun s evs hevs2 => hnd s evs (List.mem_cons_of_mem _ hevs2))
          (s0, r.snd) hrmem t htc hts e (by rw [hevs]; exact he)
        exact hout
      · show goodFor e s0 t (propagate ad now clients rest
          (syncToTargets ad now s0 evs0 clients st).store).store
        refine goodFor_of_eq ?_ (syncToTargets_goodFor ad now s0 evs0 hc hu
          (hnd s0 evs0 (List.mem_cons_self _ rest)) clients st t htc hts e he)
        apply propagate_preserve
        intro q2 hq2 tgt _ e' _ hcontra
        exact hsrest (hcontra.2.1 ▸ List.mem_map_of_mem Prod.fst hq2)
    · show goodFor e p.fst t (propagate ad now clients rest
        (syncToTargets ad now s0 evs0 clients st).store).store
      exact ih _ (fun s a b ha hb =>
          hfun s a b (List.mem_cons_of_mem _ ha) (List.mem_cons_of_mem _ hb))
        (fun s evs hevs2 => hnd s evs (List.mem_cons_of_mem _ hevs2))
        p hmem t htc hts e he

theorem mem_allEventsOf (fetch : CalendarSource → Option (List CalendarEvent))
    (clients : List CalendarSource) (s : CalendarSource)
    (evs : List CalendarEvent) :
    (s, evs) ∈ allEventsOf fetch clients ↔ s ∈ clients ∧ fetch s = some evs := by
  simp only [allEventsOf, List.mem_filterMap, Option.map_eq_some']
  constructor
  · rintro ⟨c, hc, evs2, hfc, heq⟩
    rw [Prod.ext_iff] at heq
    obtain ⟨h1, h2⟩ := heq
    simp only at h1 h2
    subst h1
    subst h2
    exact ⟨hc, hfc⟩
  · rintro ⟨hmem, hfs⟩
    exact ⟨s, hmem, evs, hfs, rfl⟩

theorem addResult_empty : addResult emptyResult emptyResult = emptyResult := by
  simp [addResult, emptyResult]

theorem processEvent_noop (ad : Adapters) (now : String)
    (source target : CalendarSource) (vis : EventVisibility)
    (e : CalendarEvent) (st : List SyncMapping)
    (hg : goodFor e source target st) :
    processEvent ad now source target vis e st =
      ⟨st, emptyResult, []⟩ := by
  obtain ⟨m, hm, hnu⟩ := hg
  simp [processEvent, hm, hnu]

theorem syncEventsToTarget_noop (ad : Adapters) (now : String)
    (source target : CalendarSource) (vis : EventVisibility) :
    ∀ (events : List CalendarEvent) (st : List SyncMapping),
      (∀ e ∈ events, goodFor e source target st) →
      syncEventsToTarget ad now source target vis events st =
        ⟨st, emptyResult, []⟩ := by
  intro events
  induction events with
  | nil => intro st _; rfl
  | cons e rest ih =>
    intro st h
    have h1 := processEvent_noop ad now source target vis e st
      (h e (List.mem_cons_self e rest))
    show (⟨(syncEventsToTarget ad now source target vis rest
        (processEvent ad now source target vis e st).store).store,
      addResult (processEvent ad now source target vis e st).result
        (syncEventsToTarget ad now source target vis rest
          (processEvent ad now source target vis e st).store).result,
      (processEvent ad now source target vis e st).ops ++
        (syncEventsToTarget ad now source target vis rest
          (processEvent ad now source target vis e st).store).ops⟩ : StepOut) =
      ⟨st, emptyResult, []⟩
    rw [h1]
    have h2 := ih st (fun e' he' => h e' (List.mem_cons_of_mem e he'))
    show (⟨(syncEventsToTarget ad now source target vis rest st).store,
      addResult emptyResult
        (syncEventsToTarget ad now source target vis rest st).result,
      [] ++ (syncEventsToTarget ad now source target vis rest st).ops⟩ :
        StepOut) = ⟨st, emptyResult, []⟩
    rw [h2, addResult_empty]
    rfl

theorem syncToTargets_noop (ad : Adapters) (now : String)
    (source : CalendarSource) (events : List CalendarEvent) :
    ∀ (targets : List CalendarSource) (st : List SyncMapping),
      (∀ t ∈ targets, t ≠ source → ∀ e ∈ events, goodFor e source t st) →
      syncToTargets ad now source events targets st = ⟨st, emptyResult, []⟩ := by
  intro targets
  induction targets with
  | nil => intro st _; rfl
  | cons t0 rest ih =>
    intro st h
    by_cases h0 : (t0 == source) = true
    · rw [syncToTargets, if_pos h0]
      exact ih st (fun t' ht' => h t' (List.mem_cons_of_mem t0 ht'))
    · rw [syncToTargets, if_neg h0]
      have hts : t0 ≠ source := by simpa [beq_iff_eq] using h0
      have h1 := syncEventsToTarget_noop ad now source t0 (getVisibility source)
        events st (h t0 (List.mem_cons_self t0 rest) hts)
      show (⟨(syncToTargets ad now source events rest
          (syncEventsToTarget ad now source t0 (getVisibility source) events
            st).store).store,
        addResult (syncEventsToTarget ad now source t0 (getVisibility source)
            events st).result
          (syncToTargets ad now source events rest
            (syncEventsToTarget ad now source t0 (getVisibility source) events
              st).store).result,
        (syncEventsToTarget ad now source t0 (getVisibility source) events
            st).ops ++
          (syncToTargets ad now source events rest
            (syncEventsToTarget ad now source t0 (getVisibility source) events
              st).store).ops⟩ : StepOut) = ⟨st, emptyResult, []⟩
      rw [h1]
      have h2 := ih st (fun t' ht' => h t' (List.mem_cons_of_mem t0 ht'))
      show (⟨(syncToTargets ad now source events rest st).store,
        addResult emptyResult (syncToTargets ad now source events rest st).result,
        [] ++ (syncToTargets ad now source events rest st).ops⟩ : StepOut) =
        ⟨st, emptyResult, []⟩
      rw [h2, addResult_empty]
      rfl

theorem propagate_noop (ad : Adapters) (now : String)
    (clients : List CalendarSource) :
    ∀ (L : List (CalendarSource × List CalendarEvent)) (st : List SyncMapping),
      (∀ p ∈ L, ∀ t ∈ clients, t ≠ p.fst → ∀ e ∈ p.snd, goodFor e p.fst t st) →
      propagate ad now clients L st = ⟨st, emptyResult, []⟩ := by
  intro L
  induction L with
  | nil => intro st _; rfl
  | cons p rest ih =>
    intro st h
    obtain ⟨s0, evs0⟩ := p
    have h1 := syncToTargets_noop ad now s0 evs0 clients st
      (fun t ht hts e he => h (s0, evs0) (List.mem_cons_self _ rest) t ht hts e he)
    show (⟨(propagate ad now clients rest
        (syncToTargets ad now s0 evs0 clients st).store).store,
      addResult (syncToTargets ad now s0 evs0 clients st).result
        (propagate ad now clients rest
          (syncToTargets ad now s0 evs0 clients st).store).result,
      (syncToTargets ad now s0 evs0 clients st).ops ++
        (propagate ad now clients rest
          (syncToTargets ad now s0 evs0 clients st).store).ops⟩ : StepOut) =
      ⟨st, emptyResult, []⟩
    rw [h1]
    have h2 := ih st (fun q hq => h q (List.mem_cons_of_mem _ hq))
    show (⟨(propagate ad now clients rest st).store,
      addResult emptyResult (propagate ad now clients rest st).result,
      [] ++ (propagate ad now clients rest st).ops⟩ : StepOut) =
      ⟨st, emptyResult, []⟩
    rw [h2, addResult_empty]
    rfl

theorem sync_goodFor (ad : Adapters)
    (fetch : CalendarSource → Option (List CalendarEvent)) (now : String)
    (clients : List CalendarSource) (st : List SyncMapping)
    (hc : ∀ t' e' v', (ad.createEvent t' e' v').isSome = true)
    (hu : ∀ t' id e' v', ad.updateEvent t' id e' v' = true)
    (hnd : ∀ s evs, fetch s = some evs → ((evs.map fun e => e.sourceId).Nodup)) :
    ∀ s evs, fetch s = some evs → s ∈ clients → ∀ t ∈ clients, t ≠ s →
      ∀ e ∈ evs, goodFor e s t (sync ad fetch now clients st).store := by
  intro s evs hfs hsc t htc hts e he
  have hfun : ∀ s2 a b, (s2, a) ∈ allEventsOf fetch clients →
      (s2, b) ∈ allEventsOf fetch clients → a = b := by
    intro s2 a b ha hb
    have h1 := ((mem_allEventsOf fetch clients s2 a).mp ha).2
    have h2 := ((mem_allEventsOf fetch clients s2 b).mp hb).2
    rw [h1] at h2
    exact Option.some_inj.mp h2
  have hndL : ∀ s2 evs2, (s2, evs2) ∈ allEventsOf fetch clients →
      ((evs2.map fun e => e.sourceId).Nodup) := by
    intro s2 evs2 hmem
    exact hnd s2 evs2 ((mem_allEventsOf fetch clients s2 evs2).mp hmem).2
  have hmemL : (s, evs) ∈ allEventsOf fetch clients :=
    (mem_allEventsOf fetch clients s evs).mpr ⟨hsc, hfs⟩
  have hprop := propagate_goodFor ad now clients hc hu
    (allEventsOf fetch clients) st hfun hndL (s, evs) hmemL t htc hts e he
  show goodFor e s t (cleanupDeletedEvents ad clients (allEventsOf fetch clients)
    (propagate ad now clients (allEventsOf fetch clients) st).store).store
  refine goodFor_of_eq ?_ hprop
  apply cleanupDeletedEvents_preserve
  intro p hp
  by_cases hps : s = p.fst
  · right
    have hpmem : (s, p.snd) ∈ allEventsOf fetch clients := by
      rw [hps]; exact hp
    have : p.snd = evs := hfun s p.snd evs hpmem hmemL
    rw [this]
    have hmm : e.sourceId ∈ evs.map fun e => e.sourceId :=
      List.mem_map_of_mem _ he
    exact List.elem_eq_true_of_mem hmm
  · exact Or.inl hps

/-- C3 (amended): if a first run executes with adapters on which every
create and every update succeeds, and each fetched list has pairwise
distinct sourceIds (the data-model uniqueness of §3), then a second run
over the same fetch results creates nothing and updates nothing. -/
theorem sync_idempotent_second_run (ad1 ad2 : Adapters)
    (fetch : CalendarSource → Option (List CalendarEvent))
    (now1 now2 : String) (clients : List CalendarSource)
    (st0 : List SyncMapping)
    (hnd : ∀ s evs, fetch s = some evs → ((evs.map fun e => e.sourceId).Nodup))
    (hc : ∀ t e v, (ad1.createEvent t e v).isSome = true)
    (hu : ∀ t id e v, ad1.updateEvent t id e v = true) :
    (sync ad2 fetch now2 clients
      (sync ad1 fetch now1 clients st0).store).result.created = 0
    ∧ (sync ad2 fetch now2 clients
      (sync ad1 fetch now1 clients st0).store).result.updated = 0 := by
  have hgood : ∀ p ∈ allEventsOf fetch clients, ∀ t ∈ clients, t ≠ p.fst →
      ∀ e ∈ p.snd, goodFor e p.fst t (sync ad1 fetch now1 clients st0).store := by
    intro p hp t htc hts e he
    obtain ⟨hpc, hpf⟩ := (mem_allEventsOf fetch clients p.fst p.snd).mp
      (by rw [← Prod.mk.eta (p := p)] at hp; exact hp)
    exact sync_goodFor ad1 fetch now1 clients st0 hc hu hnd p.fst p.snd hpf hpc
      t htc hts e he
  have hpn := propagate_noop ad2 now2 clients (allEventsOf fetch clients)
    (sync ad1 fetch now1 clients st0).store hgood
  constructor
  · show (⟨(cleanupDeletedEvents ad2 clients (allEventsOf fetch clients)
        (propagate ad2 now2 clients (allEventsOf fetch clients)
          (sync ad1 fetch now1 clients st0).store).store).store,
      ⟨(propagate ad2 now2 clients (allEventsOf fetch clients)
          (sync ad1 fetch now1 clients st0).store).result.created,
        (propagate ad2 now2 clients (allEventsOf fetch clients)
          (sync ad1 fetch now1 clients st0).store).result.updated,
        (propagate ad2 now2 clients (allEventsOf fetch clients)
            (sync ad1 fetch now1 clients st0).store).result.deleted +
          (cleanupDeletedEvents ad2 clients (allEventsOf fetch clients)
            (propagate ad2 now2 clients (allEventsOf fetch clients)
              (sync ad1 fetch now1 clients st0).store).store).result.deleted,
        fetchErrors fetch clients ++
          (propagate ad2 now2 clients (allEventsOf fetch clients)
            (sync ad1 fetch now1 clients st0).store).result.errors ++
          (cleanupDeletedEvents ad2 clients (allEventsOf fetch clients)
            (propagate ad2 now2 clients (allEventsOf fetch clients)
              (sync ad1 fetch now1 clients st0).store).store).result.errors⟩,
      (propagate ad2 now2 clients (allEventsOf fetch clients)
          (sync ad1 fetch now1 clients st0).store).ops ++
        (cleanupDeletedEvents ad2 clients (allEventsOf fetch clients)
          (propagate ad2 now2 clients (allEventsOf fetch clients)
            (sync ad1 fetch now1 clients st0).store).store).ops⟩ :
      StepOut).result.created = 0
    rw [hpn]
    rfl
  · show (⟨(cleanupDeletedEvents ad2 clients (allEventsOf fetch clients)
        (propagate ad2 now2 clients (allEventsOf fetch clients)
          (sync ad1 fetch now1 clients st0).store).store).store,
      ⟨(propagate ad2 now2 clients (allEventsOf fetch clients)
          (sync ad1 fetch now1 clients st0).store).result.created,
        (propagate ad2 now2 clients (allEventsOf fetch clients)
          (sync ad1 fetch now1 clients st0).store).result.updated,
        (propagate ad2 now2 clients (allEventsOf fetch clients)
            (sync ad1 fetch now1 clients st0).store).result.deleted +
          (cleanupDeletedEvents ad2 clients (allEventsOf fetch clients)
            (propagate ad2 now2 clients (allEventsOf fetch clients)
              (sync ad1 fetch now1 clients st0).store).store).result.deleted,
        fetchErrors fetch clients ++
          (propagate ad2 now2 clients (allEventsOf fetch clients)
            (sync ad1 fetch now1 clients st0).store).result.errors ++
          (cleanupDeletedEvents ad2 clients (allEventsOf fetch clients)
            (propagate ad2 now2 clients (allEventsOf fetch clients)
              (sync ad1 fetch now1 clients st0).store).store).result.errors⟩,
      (propagate ad2 now2 clients (allEventsOf fetch clients)
          (sync ad1 fetch now1 clients st0).store).ops ++
        (cleanupDeletedEvents ad2 clients (allEventsOf fetch clients)
          (propagate ad2 now2 clients (allEventsOf fetch clients)
            (sync ad1 fetch now1 clients st0).store).store).ops⟩ :
      StepOut).result.updated = 0
    rw [hpn]
    rfl

/-- Witness for C3 (amended) at the concrete scenario: second run over an
unchanged fetch creates and updates nothing. -/
theorem sync_idempotent_second_run_witness :
    (sync happyAdapters fetchScenario1 "tb" threeClients
      (sync happyAdapters fetchScenario1 "ta" threeClients
        []).store).result.created = 0
    ∧ (sync happyAdapters fetchScenario1 "tb" threeClients
      (sync happyAdapters fetchScenario1 "ta" threeClients
        []).store).result.updated = 0 := by
  refine sync_idempotent_second_run happyAdapters happyAdapters fetchScenario1
    "ta" "tb" threeClients [] ?_ ?_ ?_
  · intro s evs h
    cases s
    all_goals simp only [fetchScenario1, Option.some_inj] at h
    all_goals subst h
    all_goals decide
  · intro t e v; rfl
  · intro t id e v; rfl

/-- Counterexample for C3: the first run completes with its one create
succeeding (a rejected update is recorded as an error), the second run
fetches exactly the same events, yet the second run reports `updated = 1`,
not 0 — the failed update is retried. -/
theorem idempotence_counterexample :
    cxRun1.result.created = 1
    ∧ (cxRun1.ops.filter Op.isCreate).length = 1
    ∧ cxRun1.result.errors =
      [⟨"x", CalendarSource.dooray, CalendarSource.google, writeFailMsg⟩]
    ∧ cxRun2.result.created = 0
    ∧ cxRun2.result.updated = 1
    ∧ ¬(cxRun2.result.updated = 0) := by
  decide

theorem findMapping_of_mem_keysUnique :
    ∀ (st : List SyncMapping), KeysUnique st → ∀ m ∈ st,
      findMapping m.sourceId m.source m.target st = some m := by
  intro st
  induction st with
  | nil => intro _ m hm; cases hm
  | cons x xs ih =>
    intro hKU m hm
    have h2 : (List.map mappingKey (x :: xs)).Nodup := hKU
    rw [List.map_cons, List.nodup_cons] at h2
    rcases List.mem_cons.mp hm with rfl | hmem
    · rw [findMapping, List.find?_cons]
      simp
    · rw [findMapping, List.find?_cons]
      by_cases hx : (x.sourceId == m.sourceId && x.source == m.source &&
          x.target == m.target) = true
      · exfalso
        apply h2.1
        have hkeq : mappingKey x = mappingKey m := by
          simp only [Bool.and_eq_true, beq_iff_eq] at hx
          simp [mappingKey, hx.1.1, hx.1.2, hx.2]
        rw [hkeq]
        exact List.mem_map_of_mem mappingKey hmem
      · simp only [hx, Bool.false_eq_true, if_false]
        exact ih h2.2 m hmem

theorem findMappingsByTarget_sids_nodup (s t : CalendarSource)
    (st : List SyncMapping) (h : KeysUnique st) :
    ((findMappingsByTarget s t st).map fun m => m.sourceId).Nodup := by
  have hsub : List.Sublist ((findMappingsByTarget s t st).map mappingKey)
      (st.map mappingKey) := List.Sublist.map mappingKey (List.filter_sublist st)
  have hnd : ((findMappingsByTarget s t st).map mappingKey).Nodup :=
    List.Nodup.sublist hsub h
  have hmapeq : (findMappingsByTarget s t st).map mappingKey =
      ((findMappingsByTarget s t st).map fun m => m.sourceId).map
        (fun sid => (sid, s, t)) := by
    rw [List.map_map]
    apply List.map_congr_left
    intro m hm
    have hp := List.of_mem_filter hm
    simp only [Bool.and_eq_true, beq_iff_eq] at hp
    simp [mappingKey, Function.comp, hp.1, hp.2]
  rw [hmapeq] at hnd
  exact List.Nodup.of_map _ hnd

theorem cleanupEdge_none (ad : Adapters) (source target : CalendarSource)
    (ids : List String) (sid : String) (s t : CalendarSource) :
    ∀ (snap st : List SyncMapping), findMapping sid s t st = none →
      findMapping sid s t (cleanupEdge ad source target ids snap st).store =
        none := by
  intro snap
  induction snap with
  | nil => intro st h; simpa [cleanupEdge] using h
  | cons x rest ih =>
    intro st h
    by_cases hin : (ids.contains x.sourceId) = true
    · rw [cleanupEdge, if_pos hin]
      exact ih st h
    · rw [cleanupEdge, if_neg hin]
      by_cases hdel : (ad.deleteEvent target x.targetId) = true
      · rw [if_pos hdel]
        show findMapping sid s t (cleanupEdge ad source target ids rest
          (removeMapping x.sourceId source target st)).store = none
        exact ih _ (fm_none_of_filter sid s t st _ h)
      · rw [if_neg hdel]
        show findMapping sid s t
          (cleanupEdge ad source target ids rest st).store = none
        exact ih st h

theorem cleanupEdge_removes (ad : Adapters) (source target : CalendarSource)
    (ids : List String) :
    ∀ (snap st : List SyncMapping) (m : SyncMapping), m ∈ snap →
      ids.contains m.sourceId = false →
      ad.deleteEvent target m.targetId = true →
      findMapping m.sourceId source target
        (cleanupEdge ad source target ids snap st).store = none := by
  intro snap
  induction snap with
  | nil => intro st m hm; cases hm
  | cons x rest ih =>
    intro st m hm hcon hdel
    rcases List.mem_cons.mp hm with rfl | hmem
    · rw [cleanupEdge, if_neg (by rw [hcon]; exact Bool.false_ne_true), if_pos hdel]
      show findMapping m.sourceId source target
        (cleanupEdge ad source target ids rest
          (removeMapping m.sourceId source target st)).store = none
      exact cleanupEdge_none ad source target ids m.sourceId source target
        rest _ (findMapping_remove_self m.sourceId source target st)
    · by_cases hin : (ids.contains x.sourceId) = true
      · rw [cleanupEdge, if_pos hin]
        exact ih st m hmem hcon hdel
      · rw [cleanupEdge, if_neg hin]
        by_cases hdx : (ad.deleteEvent target x.targetId) = true
        · rw [if_pos hdx]
          show findMapping m.sourceId source target
            (cleanupEdge ad source target ids rest
              (removeMapping x.sourceId source target st)).store = none
          exact ih _ m hmem hcon hdel
        · rw [if_neg hdx]
          show findMapping m.sourceId source target
            (cleanupEdge ad source target ids rest st).store = none
          exact ih st m hmem hcon hdel

theorem cleanupEdge_op_mem (ad : Adapters) (source target : CalendarSource)
    (ids : List String) :
    ∀ (snap st : List SyncMapping) (m : SyncMapping), m ∈ snap →
      ids.contains m.sourceId = false →
      Op.delete source target m.targetId ∈
        (cleanupEdge ad source target ids snap st).ops := by
  intro snap
  induction snap with
  | nil => intro st m hm; cases hm
  | cons x rest ih =>
    intro st m hm hcon
    rcases List.mem_cons.mp hm with rfl | hmem
    · rw [cleanupEdge, if_neg (by rw [hcon]; exact Bool.false_ne_true)]
      by_cases hdx : (ad.deleteEvent target m.targetId) = true
      · rw [if_pos hdx]
        exact List.mem_cons_self _ _
      · rw [if_neg hdx]
        exact List.mem_cons_self _ _
    · by_cases hin : (ids.contains x.sourceId) = true
      · rw [cleanupEdge, if_pos hin]
        exact ih st m hmem hcon
      · rw [cleanupEdge, if_neg hin]
        by_cases hdx : (ad.deleteEvent target x.targetId) = true
        · rw [if_pos hdx]
          exact List.mem_cons_of_mem _ (ih _ m hmem hcon)
        · rw [if_neg hdx]
          exact List.mem_cons_of_mem _ (ih st m hmem hcon)

theorem cleanupEdge_err_mem (ad : Adapters) (source target : CalendarSource)
    (ids : List String) :
    ∀ (snap st : List SyncMapping) (m : SyncMapping), m ∈ snap →
      ids.contains m.sourceId = false →
      ad.deleteEvent target m.targetId = false →
      (⟨m.sourceId, source, target, deleteFailMsg⟩ : SyncError) ∈
        (cleanupEdge ad source target ids snap st).result.errors := by
  intro snap
  induction snap with
  | nil => intro st m hm; cases hm
  | cons x rest ih =>
    intro st m hm hcon hdel
    rcases List.mem_cons.mp hm with rfl | hmem
    · rw [cleanupEdge, if_neg (by rw [hcon]; exact Bool.false_ne_true), if_neg (by rw [hdel]; exact Bool.false_ne_true)]
      show (⟨m.sourceId, source, target, deleteFailMsg⟩ : SyncError) ∈
        (addResult ⟨0, 0, 0, [⟨m.sourceId, source, target, deleteFailMsg⟩]⟩
          (cleanupEdge ad source target ids rest st).result).errors
      exact List.mem_append.mpr (Or.inl (List.mem_singleton.mpr rfl))
    · by_cases hin : (ids.contains x.sourceId) = true
      · rw [cleanupEdge, if_pos hin]
        exact ih st m hmem hcon hdel
      · rw [cleanupEdge, if_neg hin]
        by_cases hdx : (ad.deleteEvent target x.targetId) = true
        · rw [if_pos hdx]
          show (⟨m.sourceId, source, target, deleteFailMsg⟩ : SyncError) ∈
            (addResult ⟨0, 0, 1, []⟩ (cleanupEdge ad source target ids rest
              (removeMapping x.sourceId source target st)).result).errors
          exact List.mem_append.mpr (Or.inr (ih _ m hmem hcon hdel))
        · rw [if_neg hdx]
          show (⟨m.sourceId, source, target, deleteFailMsg⟩ : SyncError) ∈
            (addResult ⟨0, 0, 0, [⟨x.sourceId, source, target, deleteFailMsg⟩]⟩
              (cleanupEdge ad source target ids rest st).result).errors
          exact List.mem_append.mpr (Or.inr (ih st m hmem hcon hdel))

theorem cleanupEdge_deleted (ad : Adapters) (source target : CalendarSource)
    (ids : List String) :
    ∀ (snap st : List SyncMapping),
      (cleanupEdge ad source target ids snap st).result.deleted =
        (snap.filter fun m => !(ids.contains m.sourceId) &&
          ad.deleteEvent target m.targetId).length := by
  intro snap
  induction snap with
  | nil => intro st; rfl
  | cons x rest ih =>
    intro st
    by_cases hin : (ids.contains x.sourceId) = true
    · rw [cleanupEdge, if_pos hin, ih st]
      simp only [List.filter_cons]
      have hcond : (!(ids.contains x.sourceId) &&
          ad.deleteEvent target x.targetId) = false := by
        rw [hin]; rfl
      rw [hcond]
      simp
    · rw [cleanupEdge, if_neg hin]
      have hin' : (ids.contains x.sourceId) = false := eq_false_of_ne_true hin
      by_cases hdx : (ad.deleteEvent target x.targetId) = true
      · rw [if_pos hdx]
        show (addResult ⟨0, 0, 1, []⟩ (cleanupEdge ad source target ids rest
          (removeMapping x.sourceId source target st)).result).deleted = _
        show 1 + (cleanupEdge ad source target ids rest
          (removeMapping x.sourceId source target st)).result.deleted = _
        rw [ih _]
        simp only [List.filter_cons]
        have hcond : (!(ids.contains x.sourceId) &&
            ad.deleteEvent target x.targetId) = true := by
          rw [hin', hdx]; rfl
        rw [hcond]
        simp [Nat.add_comm]
      · rw [if_neg hdx]
        show (addResult ⟨0, 0, 0, [⟨x.sourceId, source, target, deleteFailMsg⟩]⟩
          (cleanupEdge ad source target ids rest st).result).deleted = _
        show 0 + (cleanupEdge ad source target ids rest st).result.deleted = _
        rw [Nat.zero_add, ih st]
        simp only [List.filter_cons]
        have hcond : (!(ids.contains x.sourceId) &&
            ad.deleteEvent target x.targetId) = false := by
          rw [hin', eq_false_of_ne_true hdx]; rfl
        rw [hcond]
        simp

/-- C5: on one cleanup edge, every snapshot row whose sourceId is no longer
fetched gets a delete call; on success the row is gone from the store, on
failure an error naming the row and edge is recorded and the row is left
intact for the next run; the deleted counter counts exactly the successful
deletes; and rows of still-fetched ids are untouched. -/
theorem cleanup_deletion_retry (ad : Adapters) (source target : CalendarSource)
    (ids : List String) (st : List SyncMapping) (hKU : KeysUnique st) :
    (∀ m ∈ findMappingsByTarget source target st,
      ids.contains m.sourceId = false →
      (Op.delete source target m.targetId ∈
          (cleanupEdgeRun ad source target ids st).ops
        ∧ (ad.deleteEvent target m.targetId = true →
            findMapping m.sourceId source target
              (cleanupEdgeRun ad source target ids st).store = none)
        ∧ (ad.deleteEvent target m.targetId = false →
            (⟨m.sourceId, source, target, deleteFailMsg⟩ : SyncError) ∈
              (cleanupEdgeRun ad source target ids st).result.errors
            ∧ findMapping m.sourceId source target
                (cleanupEdgeRun ad source target ids st).store = some m)))
    ∧ (cleanupEdgeRun ad source target ids st).result.deleted =
      ((findMappingsByTarget source target st).filter fun m =>
        !(ids.contains m.sourceId) && ad.deleteEvent target m.targetId).length
    ∧ (∀ sid, ids.contains sid = true → ∀ s2 t2,
        findMapping sid s2 t2 (cleanupEdgeRun ad source target ids st).store =
          findMapping sid s2 t2 st) := by
  refine ⟨?_, cleanupEdge_deleted ad source target ids _ st, ?_⟩
  · intro m hm hcon
    refine ⟨cleanupEdge_op_mem ad source target ids _ st m hm hcon, ?_, ?_⟩
    · intro hdel
      exact cleanupEdge_removes ad source target ids _ st m hm hcon hdel
    · intro hdel
      refine ⟨cleanupEdge_err_mem ad source target ids _ st m hm hcon hdel, ?_⟩
      have hpred := List.of_mem_filter hm
      simp only [Bool.and_eq_true, beq_iff_eq] at hpred
      have hmem : m ∈ st := List.mem_of_mem_filter hm
      have hfm : findMapping m.sourceId source target st = some m := by
        have h0 := findMapping_of_mem_keysUnique st hKU m hmem
        rw [hpred.1, hpred.2] at h0
        exact h0
      have hpres : findMapping m.sourceId source target
          (cleanupEdgeRun ad source target ids st).store =
          findMapping m.sourceId source target st := by
        apply cleanupEdge_preserve
        intro x hx hc
        have hxm : x = m := by
          apply List.inj_on_of_nodup_map
            (findMappingsByTarget_sids_nodup source target st hKU) hx hm
          exact hc.1.symm
        right
        rw [hxm]
        exact hdel
      rw [hpres, hfm]
  · intro sid hcon s2 t2
    apply cleanupEdge_preserve
    intro x hx hc
    left
    rw [← hc.1]
    exact hcon

/-- Witness for C5: a concrete store with one stale row on the edge gets
its delete call recorded. -/
theorem cleanup_deletion_retry_witness :
    Op.delete CalendarSource.dooray CalendarSource.google "gid-1" ∈
      (cleanupEdgeRun happyAdapters CalendarSource.dooray
        CalendarSource.google ["kept"]
        [⟨"gone", CalendarSource.dooray, "gid-1", CalendarSource.google,
          "t0", none⟩]).ops := by
  exact ((cleanup_deletion_retry happyAdapters CalendarSource.dooray
    CalendarSource.google ["kept"]
    [⟨"gone", CalendarSource.dooray, "gid-1", CalendarSource.google,
      "t0", none⟩] (by unfold KeysUnique; decide)).1
    ⟨"gone", CalendarSource.dooray, "gid-1", CalendarSource.google,
      "t0", none⟩ (by decide) (by decide)).1

theorem fetchErrors_mem (fetch : CalendarSource → Option (List CalendarEvent)) :
    ∀ (clients : List CalendarSource) (s : CalendarSource), s ∈ clients →
      fetch s = none →
      (⟨"", s, s, fetchFailMsg⟩ : SyncError) ∈ fetchErrors fetch clients := by
  intro clients
  induction clients with
  | nil => intro s hs; cases hs
  | cons c rest ih =>
    intro s hs hf
    rcases List.mem_cons.mp hs with rfl | hmem
    · rw [fetchErrors, hf]
      exact List.mem_cons_self _ _
    · cases hfc : fetch c with
      | some evs =>
        rw [fetchErrors, hfc]
        exact ih s hmem hf
      | none =>
        rw [fetchErrors, hfc]
        exact List.mem_cons_of_mem _ (ih s hmem hf)

/-- C7: when the fetch of one calendar rejects, the run records its fetch
error entry and continues; the failed calendar is the source of no recorded
operation (neither propagation nor deletion-detection), all of its outgoing
mapping rows survive untouched, and — when remote writes succeed — every
successfully fetched calendar still ends up mirrored into the failed
calendar. -/
theorem fetch_failure_degradation (ad : Adapters)
    (fetch : CalendarSource → Option (List CalendarEvent)) (now : String)
    (clients : List CalendarSource) (st : List SyncMapping)
    (s : CalendarSource) (hs : s ∈ clients) (hf : fetch s = none) :
    ((⟨"", s, s, fetchFailMsg⟩ : SyncError) ∈
      (sync ad fetch now clients st).result.errors)
    ∧ (∀ op ∈ (sync ad fetch now clients st).ops, op.src ≠ s)
    ∧ (∀ sid t, findMapping sid s t (sync ad fetch now clients st).store =
        findMapping sid s t st)
    ∧ ((∀ t' e' v', (ad.createEvent t' e' v').isSome = true) →
       (∀ t' id e' v', ad.updateEvent t' id e' v' = true) →
       (∀ s2 evs, fetch s2 = some evs →
         ((evs.map fun e => e.sourceId).Nodup)) →
       ∀ s2 evs, fetch s2 = some evs → s2 ∈ clients → s2 ≠ s → ∀ e ∈ evs,
         ∃ m, findMapping e.sourceId s2 s
           (sync ad fetch now clients st).store = some m) := by
  have hnotin : s ∉ (allEventsOf fetch clients).map Prod.fst := by
    intro hmem
    obtain ⟨p, hp, hpf⟩ := List.mem_map.mp hmem
    have hp2 := ((mem_allEventsOf fetch clients p.fst p.snd).mp
      (by rw [← Prod.mk.eta (p := p)] at hp; exact hp)).2
    rw [hpf, hf] at hp2
    cases hp2
  refine ⟨?_, ?_, ?_, ?_⟩
  · exact List.mem_append.mpr (Or.inl (List.mem_append.mpr
      (Or.inl (fetchErrors_mem fetch clients s hs hf))))
  · intro op hop
    have hop2 : op ∈ (propagate ad now clients (allEventsOf fetch clients)
        st).ops ++ (cleanupDeletedEvents ad clients (allEventsOf fetch clients)
        (propagate ad now clients (allEventsOf fetch clients) st).store).ops :=
      hop
    rcases List.mem_append.mp hop2 with h1 | h1
    · intro hsrc
      exact hnotin (hsrc ▸ (propagate_ops ad now clients _ st op h1).2)
    · intro hsrc
      exact hnotin (hsrc ▸ (cleanupDeletedEvents_ops ad clients _ _ op h1).2)
  · intro sid t
    show findMapping sid s t (cleanupDeletedEvents ad clients
      (allEventsOf fetch clients) (propagate ad now clients
        (allEventsOf fetch clients) st).store).store = findMapping sid s t st
    rw [cleanupDeletedEvents_preserve ad clients sid s t
        (allEventsOf fetch clients) _ (fun p hp => Or.inl (fun hsp =>
          hnotin (hsp ▸ List.mem_map_of_mem Prod.fst hp))),
      propagate_preserve ad now clients sid s t (allEventsOf fetch clients) st
        (fun p hp tgt _ e' _ hc => hnotin
          (hc.2.1 ▸ List.mem_map_of_mem Prod.fst hp))]
  · intro hc hu hnd s2 evs hf2 hs2 hne e he
    obtain ⟨m, hm, _⟩ := sync_goodFor ad fetch now clients st hc hu hnd s2 evs
      hf2 hs2 s hs (fun heq => hne heq.symm) e he
    exact ⟨m, hm⟩

/-- Witness for C7: with the apple fetch rejecting, the run records the
apple fetch error entry. -/
theorem fetch_failure_degradation_witness :
    (⟨"", CalendarSource.apple, CalendarSource.apple, fetchFailMsg⟩ :
      SyncError) ∈
      (sync happyAdapters failFetch "tf" threeClients []).result.errors := by
  exact (fetch_failure_degradation happyAdapters failFetch "tf" threeClients
    [] CalendarSource.apple (by decide) rfl).1
